import Mathlib

/-!
Verification development for the HouseDvr recording aggregation service.

The definitions below are a shallow embedding of the C sources
(housedvr_transfer.c, housedvr_feed.c, housedvr_store.c).  Machine
integers are modelled as `Int`/`Nat`; C strings are `List Char`
(truncating `snprintf` into a buffer of n bytes becomes `List.take (n-1)`);
the file system is an abstract function from paths to `stat` data; a call
to `crashandburn` (deliberate crash) is modelled as the `none` outcome.
-/

namespace HouseDvr

/-- Transfer slot states, from housedvr_transfer.c lines 80-84. -/
inductive TState where
  | empty
  | idle
  | active
  | done
  | failed
deriving DecidableEq, Repr, Inhabited

/-- One slot of the transfer queue (struct TransferFile, lines 108-115).
The char arrays feed[128] and path[256] hold at most 127 and 255
characters respectively. -/
structure Slot where
  state : TState
  size : Int
  offset : Int
  initiated : Int
  feed : List Char
  path : List Char
deriving DecidableEq, Repr

/-- A slot as produced by calloc: all fields zero. -/
def emptySlot : Slot :=
  { state := .empty, size := 0, offset := 0, initiated := 0, feed := [], path := [] }

instance : Inhabited Slot := ⟨emptySlot⟩

/-- The transfer queue state: the fixed array TransferQueue of
TransferQueueSize slots plus the TransferConsumer / TransferProducer
cursors (lines 116-120). -/
structure QState where
  n : Nat
  slots : List Slot
  consumer : Nat
  producer : Nat
deriving DecidableEq, Repr

/-- housedvr_transfer_next (lines 143-146): circular successor. -/
def housedvr_transfer_next (n i : Nat) : Nat :=
  if n ≤ i + 1 then 0 else i + 1

/-- Circular distance from a to b on a ring of size n, for a b < n.
Equals (b + n - a) % n, written without % so that omega applies. -/
def distQ (a b n : Nat) : Nat :=
  if a ≤ b then b - a else b + n - a

/-- The walk i, next i, next (next i), ... of length k. -/
def walkQ : Nat → Nat → Nat → List Nat
  | 0, _, _ => []
  | k + 1, x, n => x :: walkQ k (housedvr_transfer_next n x) n

/-- The indices visited by a C loop `for (; index != b; index = next(index))`
starting at a. -/
def indicesBetween (a b n : Nat) : List Nat :=
  walkQ (distQ a b n) a n

/-- The indices scanned by the first ("recently transferred") loop of
housedvr_transfer_notify (lines 155-158) and of housedvr_transfer_status
(lines 394-397). -/
def histIndices (qs : QState) : List Nat :=
  indicesBetween
    (if qs.producer = qs.consumer
     then housedvr_transfer_next qs.n qs.producer
     else qs.producer)
    qs.consumer qs.n

/-- The indices scanned by the second ("already queued") loop of
housedvr_transfer_notify (lines 177-178) and of housedvr_transfer_status
(lines 421-422). -/
def pendIndices (qs : QState) : List Nat :=
  indicesBetween qs.consumer qs.producer qs.n

/-- What a scan loop does at one visited slot. -/
inductive ScanAct where
  | crash
  | retUnit
  | retSlot (i : Nat)
  | cont (matched : Bool)
deriving DecidableEq, Repr

/-- The body of the history loop of housedvr_transfer_notify
(lines 160-172) at index j: skip on path mismatch; on a match, a DONE
entry of the same size means "already done" (return), a DONE entry of a
different size or a FAILED entry keeps looking, and any other state is
crashandburn. -/
def procHist (slots : List Slot) (path : List Char) (size : Int) (j : Nat) : ScanAct :=
  match slots.get? j with
  | none => .crash
  | some sl =>
    if sl.path = path then
      match sl.state with
      | .done => if sl.size = size then .retUnit else .cont true
      | .failed => .cont true
      | _ => .crash
    else .cont false

/-- The body of the pending loop of housedvr_transfer_notify
(lines 180-193) at index j: skip on path mismatch; on a match, an ACTIVE
entry of the same size means "already in progress" (return), an ACTIVE
entry of another size keeps looking, an IDLE entry is updated in place
(return), and any other state is crashandburn. -/
def procPend (slots : List Slot) (path : List Char) (size : Int) (j : Nat) : ScanAct :=
  match slots.get? j with
  | none => .crash
  | some sl =>
    if sl.path = path then
      match sl.state with
      | .active => if sl.size = size then .retUnit else .cont true
      | .idle => .retSlot j
      | _ => .crash
    else .cont false

/-- Run a scan loop over a list of indices.  `none` is crashandburn,
`some (.inl r)` is an early return (r names the IDLE slot to update, if
any), `some (.inr m)` is normal loop exit with m = "some slot matched". -/
def runScan (proc : Nat → ScanAct) : List Nat → Option (Sum (Option Nat) Bool)
  | [] => some (.inr false)
  | j :: rest =>
    match proc j with
    | .crash => none
    | .retUnit => some (.inl none)
    | .retSlot i => some (.inl (some i))
    | .cont m =>
      match runScan proc rest with
      | none => none
      | some (.inl r) => some (.inl r)
      | some (.inr m2) => some (.inr (m || m2))

/-- Replace the element at an index (identity out of range). -/
def listModify (f : α → α) : Nat → List α → List α
  | _, [] => []
  | 0, a :: l => f a :: l
  | k + 1, a :: l => a :: listModify f k l

/-- Update the size of the IDLE slot found by the pending scan
(line 189: cursor->size = size). -/
def setSlotSize (qs : QState) (i : Nat) (v : Int) : QState :=
  { qs with slots := listModify (fun sl => { sl with size := v }) i qs.slots }

/-- Fill the slot at TransferProducer and advance the producer
(lines 233-244).  snprintf into feed[128] / path[256] keeps at most
127 / 255 characters. -/
def appendSlot (qs : QState) (feed path : List Char) (size : Int) : QState :=
  { qs with
    slots := listModify
      (fun sl => { sl with
                   state := .idle, size := size, offset := 0,
                   feed := feed.take 127, path := path.take 255 })
      qs.producer qs.slots,
    producer := housedvr_transfer_next qs.n qs.producer }

/-- strstr (path, "..") != NULL. -/
def hasDotDot : List Char → Bool
  | '.' :: '.' :: _ => true
  | _ :: rest => hasDotDot rest
  | [] => false

/-- The state of each slot, as an Option to model out-of-bounds access. -/
def stateAt (qs : QState) (i : Nat) : Option TState :=
  (qs.slots.get? i).map Slot.state

/-- housedvr_transfer_notify (lines 148-245).  `root` is
housedvr_store_root(), `fs` maps an absolute path to the st_size of an
existing file (none when stat fails).  The returned Bool is the hint
modelled from the spec (see housedvr_transfer.h line 24 which declares the
function void, while housedvr_feed.c line 505 reads an int result):
`notify` "returns a hint (newly enqueued)", true exactly when a new
transfer request was appended to the queue.  The C int result is 0 when
the hint is true, matching the caller's `if (!r)`.  `none` models
crashandburn.  The `mkdir` calls only affect the external file system and
are not part of the queue state; the function result they produce is
ignored by the C code. -/
def housedvr_transfer_notify (root : List Char) (fs : List Char → Option Int)
    (feed path : List Char) (size : Int) (qs : QState) : Option (QState × Bool) :=
  match runScan (procHist qs.slots path size) (histIndices qs) with
  | none => none
  | some (.inl _) => some (qs, false)
  | some (.inr mh) =>
    match runScan (procPend qs.slots path size) (pendIndices qs) with
    | none => none
    | some (.inl none) => some (qs, false)
    | some (.inl (some i)) => some (setSlotSize qs i size, false)
    | some (.inr mp) =>
      if hasDotDot path then some (qs, false)
      else if 511 ≤ root.length + path.length then some (qs, false)
      else if (mh || mp) = false ∧ fs (root ++ '/' :: path) = some size then
        some (qs, false)
      else if housedvr_transfer_next qs.n qs.producer = qs.consumer then
        some (qs, false)
      else
        match stateAt qs qs.producer with
        | none => none
        | some st =>
          if st = .active ∨ st = .idle then none
          else some (appendSlot qs feed path size, true)

/-- The clamped -dvr-queue size (housedvr_transfer_initialize lines
136-138): default 128, at least 16. -/
def queueSizeOf (sizeArg : Option Int) : Nat :=
  (if sizeArg.getD 128 < 16 then 16 else sizeArg.getD 128).toNat

/-- housedvr_transfer_initialize (lines 130-141): the -dvr-queue option,
default 128, clamped to at least 16; the queue is calloc'ed (all slots
zero).  The option value is passed already converted by atoi. -/
def housedvr_transfer_setup (sizeArg : Option Int) : QState :=
  { n := queueSizeOf sizeArg,
    slots := List.replicate (queueSizeOf sizeArg) emptySlot,
    consumer := 0, producer := 0 }

/-- The slot update performed when a transfer starts (lines 334-335). -/
def activateSlot (now : Int) (qs : QState) : QState :=
  { qs with slots := listModify (fun sl => { sl with state := .active, initiated := now })
              qs.consumer qs.slots }

/-- The slot update performed when a transfer completes (lines 360-380):
DONE on a 2xx status, FAILED otherwise, and the consumer advances. -/
def finishSlot (status : Nat) (qs : QState) : QState :=
  { qs with
    slots := listModify
      (fun sl => { sl with state := if status / 100 = 2 then .done else .failed })
      qs.consumer qs.slots,
    consumer := housedvr_transfer_next qs.n qs.consumer }

/-- housedvr_transfer_start (lines 324-352) up to the point where the HTTP
request is submitted: nothing to do on an empty queue or while a transfer
is ACTIVE; an IDLE head becomes ACTIVE; any other head state is
crashandburn.  The later submit failure path reuses
housedvr_transfer_end, which is a separate step. -/
def housedvr_transfer_start (now : Int) (qs : QState) : Option QState :=
  if qs.consumer = qs.producer then some qs
  else
    match stateAt qs qs.consumer with
    | some .active => some qs
    | some .idle => some (activateSlot now qs)
    | _ => none

/-- housedvr_transfer_end (lines 354-382): the ACTIVE head becomes DONE on
a 2xx status and FAILED otherwise, and the consumer advances.  Any other
head state is crashandburn.  The trailing call to
housedvr_transfer_start is a separate step. -/
def housedvr_transfer_end (status : Nat) (qs : QState) : Option QState :=
  match stateAt qs qs.consumer with
  | some .active => some (finishSlot status qs)
  | _ => none

/-- One step of the transfer queue: a notification from the feed module, a
background tick (housedvr_transfer_background calls
housedvr_transfer_start), or the completion of the ongoing transfer. -/
inductive TransferStep (root : List Char) : QState → QState → Prop
  | notify (fs : List Char → Option Int) (feed path : List Char) (size : Int)
      (qs qs' : QState) (b : Bool)
      (h : housedvr_transfer_notify root fs feed path size qs = some (qs', b)) :
      TransferStep root qs qs'
  | start (now : Int) (qs qs' : QState)
      (h : housedvr_transfer_start now qs = some qs') : TransferStep root qs qs'
  | complete (status : Nat) (qs qs' : QState)
      (h : housedvr_transfer_end status qs = some qs') : TransferStep root qs qs'

/-- Queue states reachable from initialization. -/
inductive TransferReachable (root : List Char) (sizeArg : Option Int) : QState → Prop
  | init : TransferReachable root sizeArg (housedvr_transfer_setup sizeArg)
  | step {qs qs' : QState} :
      TransferReachable root sizeArg qs → TransferStep root qs qs' →
      TransferReachable root sizeArg qs'

/-- States allowed in the history region. -/
def histState (s : TState) : Prop := s = .empty ∨ s = .done ∨ s = .failed

/-- States allowed in the pending region. -/
def pendState (s : TState) : Prop := s = .idle ∨ s = .active

instance (s : TState) : Decidable (histState s) := by
  unfold histState; infer_instance

instance (s : TState) : Decidable (pendState s) := by
  unfold pendState; infer_instance

/-- Index i is in the pending region [consumer, producer). -/
def inPending (qs : QState) (i : Nat) : Prop :=
  distQ qs.consumer i qs.n < distQ qs.consumer qs.producer qs.n

instance (qs : QState) (i : Nat) : Decidable (inPending qs i) := by
  unfold inPending; infer_instance

/-- The slot at an index (emptySlot out of range). -/
def slotAt (qs : QState) (i : Nat) : Slot :=
  (qs.slots.get? i).getD emptySlot

/-- The queue invariant: sizes and cursors are consistent, pending slots
are IDLE/ACTIVE, history slots are EMPTY/DONE/FAILED, ACTIVE only occurs
at the consumer, and slots never written still carry the empty path. -/
def QInv (qs : QState) : Prop :=
  2 ≤ qs.n ∧ qs.slots.length = qs.n ∧ qs.consumer < qs.n ∧ qs.producer < qs.n ∧
  ∀ i, i < qs.n →
    (inPending qs i → pendState (slotAt qs i).state) ∧
    (¬ inPending qs i → histState (slotAt qs i).state) ∧
    ((slotAt qs i).state = .active → i = qs.consumer) ∧
    ((slotAt qs i).state = .empty → (slotAt qs i).path = [])

instance (qs : QState) : Decidable (QInv qs) := by
  unfold QInv; infer_instance

/-- Number of occupied (non EMPTY) slots. -/
def occupiedCount (qs : QState) : Nat :=
  qs.slots.countP (fun sl => decide (sl.state ≠ .empty))

/-- The URL requested when a slot is started (housedvr_transfer_start
lines 337-338): snprintf into url[512]. -/
def housedvr_transfer_requestUrl (item : Slot) : List Char :=
  (item.feed ++ ("/recording/").toList ++ item.path).take 511

/-- The recording notification fragment of housedvr_feed_scanned
(lines 505-508): forward one stable file to the transfer queue; when the
transfer module hints that the file is newly enqueued, rush the next full
scan to now + 10.  Modelled from the spec: the int result of
housedvr_transfer_notify is absent from housedvr_transfer.c (declared
void), while this caller reads `int r` and tests `if (!r)`; per the spec
the hint means "newly enqueued", so r = 0 corresponds to the Bool hint
being true. -/
def housedvr_feed_scanned_rush (root : List Char) (fs : List Char → Option Int)
    (feed path : List Char) (size : Int) (now : Int)
    (qs : QState) (nextFullScan : Int) : Option (QState × Int) :=
  match housedvr_transfer_notify root fs feed path size qs with
  | none => none
  | some (qs', newly) => some (qs', if newly then now + 10 else nextFullScan)

/-! ### Feed registry (housedvr_feed.c) -/

/-- isalpha in the C locale (ASCII letters). -/
def isalphaC (c : Char) : Bool :=
  ('A' ≤ c ∧ c ≤ 'Z') ∨ ('a' ≤ c ∧ c ≤ 'z')

/-- isspace in the C locale, as consumed by atoi. -/
def isspaceC (c : Char) : Bool :=
  c = ' ' ∨ c = '\t' ∨ c = '\n' ∨ c = '\x0b' ∨ c = '\x0c' ∨ c = '\x0d'

/-- The digit-accumulating loop of atoi. -/
def atoiDigits : List Char → Int → Int
  | [], acc => acc
  | c :: rest, acc =>
    if c.isDigit then atoiDigits rest (acc * 10 + ((c.toNat : Int) - 48)) else acc

/-- atoi: skip leading whitespace, optional sign, then digits. -/
def atoiChars : List Char → Int
  | [] => 0
  | c :: rest =>
    if isspaceC c then atoiChars rest
    else if c = '-' then - atoiDigits rest 0
    else if c = '+' then atoiDigits rest 0
    else atoiDigits (c :: rest) 0

/-- The character at which the unit-searching loop of housedvr_feed_server
stops (line 149: `for (u = space; *u > 0; ++u) if (isalpha(*u)) break;`).
The loop also stops at bytes outside 1..127, because char is signed; the
result is 0 (the terminator) when the whole string is scanned. -/
def dvr_feed_stopchar : List Char → Char
  | [] => Char.ofNat 0
  | c :: rest =>
    if c.toNat < 1 ∨ 128 ≤ c.toNat then c
    else if isalphaC c then c
    else dvr_feed_stopchar rest

/-- The availableMB normalization of housedvr_feed_server (lines 147-152):
atoi of the string, multiplied by 1024 when the stop character is 'G',
kept when it is 'M', and zeroed otherwise. -/
def dvr_feed_available (space : List Char) : Int :=
  let a := atoiChars space
  let u := dvr_feed_stopchar space
  if u = 'G' then a * 1024 else if u = 'M' then a else 0

/-- availableMB as the spec describes it (section 3, FeedServer): the
value of the first alphabetic character decides the unit. -/
def spec_availableMB (space : List Char) : Int :=
  match space.find? isalphaC with
  | some c => if c = 'M' then atoiChars space
              else if c = 'G' then atoiChars space * 1024
              else 0
  | none => 0

/-- One entry of the Servers table (ServerRegistration, lines 87-93). -/
structure ServerReg where
  name : List Char
  updated : Int
  adminurl : List Char
  available : Int
  timestamp : Int
deriving DecidableEq, Repr

/-- One entry of the Feeds table (FeedRegistration, lines 99-104); the
name is a heap string, NULL for a never-used slot. -/
structure FeedReg where
  name : Option (List Char)
  server : List Char
  url : List Char
  timestamp : Int
deriving DecidableEq, Repr

/-- The feed registry state. -/
structure FeedState where
  servers : List ServerReg
  feeds : List FeedReg
deriving DecidableEq, Repr

/-- The largest index satisfying p, matching the descending search loops
`for (i = Count-1; i >= 0; --i)`. -/
def findLastIdx (p : α → Bool) (l : List α) : Option Nat :=
  (List.range l.length).reverse.find? (fun i =>
    match l.get? i with
    | some x => p x
    | none => false)

/-- The fields housedvr_feed_server writes into the matched or new entry
(lines 176-185): adminurl (truncated), timestamp, updated (kept when the
report is 0), available. -/
def serverUpdate (now updated : Int) (adminurl : List Char) (avail : Int)
    (sv : ServerReg) : ServerReg :=
  { sv with
    adminurl := adminurl.take 255,
    timestamp := now,
    updated := if updated ≠ 0 then updated else sv.updated,
    available := avail }

/-- The descending name search of housedvr_feed_server (lines 154-160):
only entries with a non-empty name participate. -/
def serverMatches (name : List Char) (sv : ServerReg) : Bool :=
  sv.name ≠ [] ∧ sv.name = name

/-- An erased entry reusable for a new server. -/
def serverFreeSlot (sv : ServerReg) : Bool := sv.name = []

/-- housedvr_feed_server (lines 141-187): upsert a CCTV server entry.
Returns the updated state and the "new server" flag.  The name and
adminurl go through snprintf into char[128] / char[256]. -/
def housedvr_feed_server (now : Int) (name : List Char) (updated : Int)
    (adminurl : List Char) (space : List Char) (st : FeedState) : FeedState × Bool :=
  match findLastIdx (serverMatches name) st.servers with
  | some i =>
    ({ st with
       servers := listModify (serverUpdate now updated adminurl (dvr_feed_available space))
                    i st.servers }, false)
  | none =>
    match st.servers.findIdx? serverFreeSlot with
    | some i =>
      ({ st with
         servers := listModify
                      (fun sv =>
                        serverUpdate now updated adminurl (dvr_feed_available space)
                          { sv with name := name.take 127 })
                      i st.servers }, true)
    | none =>
      ({ st with
         servers := st.servers ++
                      [serverUpdate now updated adminurl (dvr_feed_available space)
                        { name := name.take 127, updated := 0, adminurl := [],
                          available := 0, timestamp := 0 }] }, true)

/-- housedvr_feed_register (lines 189-239): upsert a camera entry.
`server = none` is the state-restore path, which never overwrites an
existing entry and records a ghost otherwise. -/
def housedvr_feed_register (now : Int) (name : List Char)
    (server : Option (List Char)) (url : List Char) (st : FeedState) : FeedState × Bool :=
  match findLastIdx (fun f => f.name = some name) st.feeds with
  | some i =>
    match server with
    | none => (st, false)
    | some sv =>
      let old := (st.feeds.get? i).getD { name := none, server := [], url := [], timestamp := 0 }
      let changed := old.url ≠ url ∨ old.server ≠ sv
      let fds := listModify
        (fun f => { f with url := url.take 255, server := sv.take 255, timestamp := now })
        i st.feeds
      ({ st with feeds := fds }, decide changed)
  | none =>
    let put := fun (e : FeedReg) =>
      match st.feeds.findIdx? (fun f => f.name = none) with
      | some i => { st with feeds := listModify (fun _ => e) i st.feeds }
      | none => { st with feeds := st.feeds ++ [e] }
    match server with
    | none =>
      (put { name := some name, server := [], url := [], timestamp := 0 }, false)
    | some sv =>
      (put { name := some name, server := sv.take 255, url := url.take 255,
             timestamp := now }, true)

/-- Split a device list on '+'; dvr_feed_declare registers every
'+'-terminated token and the trailing token only when non-empty. -/
def splitPlus : List Char → List (List Char)
  | [] => [[]]
  | c :: rest =>
    if c = '+' then [] :: splitPlus rest
    else
      match splitPlus rest with
      | [] => [[c]]
      | t :: ts => (c :: t) :: ts

/-- Register the device tokens of dvr_feed_declare (lines 637-655). -/
def declareDevices (now : Int) (nm u : List Char) :
    List (List Char) → Bool → FeedState → FeedState
  | [], _, st => st
  | tok :: rest, isLast, st =>
    let doOne := fun (st : FeedState) =>
      let feed := (nm ++ ':' :: tok).take 127
      let devurl := (("http://").toList ++ u ++ '/' :: tok ++ ("/stream").toList).take 255
      (housedvr_feed_register now feed (some nm) devurl st).1
    match rest with
    | [] =>
      if isLast ∧ tok = [] then st  -- trailing empty token: j = 0, skipped
      else doOne st
    | _ :: _ => declareDevices now nm u rest isLast (doOne st)

/-- dvr_feed_declare (lines 613-659), the legacy push registration.  Each
parameter is none when absent from the request.  The Bool result is true
when the handler dereferences the NULL devices pointer (line 637), i.e.
the process crashes; the state component is the registry at that point. -/
def dvr_feed_declare (now : Int)
    (name admin url space devices : Option (List Char)) (st : FeedState) :
    FeedState × Bool :=
  let admin := match admin with
               | none => url
               | some a => some a
  match name, url, space with
  | some nm, some u, some sp =>
    let devurl := (("http://").toList ++ admin.getD [] ++ ['/']).take 255
    let st1 := (housedvr_feed_server now nm 0 devurl sp st).1
    (match devices with
     | none => (st1, true)
     | some ds => (declareDevices now nm u (splitPlus ds) true st1, false))
  | _, _, _ => (st, false)

/-! ### Recording stability (housedvr_feed_scanned, lines 472-510) -/

/-- A parsed JSON value, as classified by echttp_json. -/
inductive JVal where
  | jint (v : Int)
  | jstr (s : List Char)
  | jbool (b : Bool)
  | jother
deriving DecidableEq, Repr

/-- The stability decision of housedvr_feed_scanned (lines 492-503): with
at least 4 elements, stable is the 4th element when it is a boolean and 0
otherwise; with exactly 3 elements, stable is set when the integer
timestamp (element 0) is older than now - 60. -/
def dvr_record_stable (tuple : List JVal) (now : Int) : Bool :=
  if 4 ≤ tuple.length then
    match tuple.get? 3 with
    | some (.jbool b) => b
    | _ => false
  else
    match tuple.get? 0 with
    | some (.jint ts) => decide (ts < now - 60)
    | _ => false

/-- The per-tuple forwarding of housedvr_feed_scanned (lines 479-509):
the (path, size) pair passed to housedvr_transfer_notify, or none when
the tuple is invalid or not stable. -/
def dvr_record_forwarded (tuple : List JVal) (now : Int) : Option (List Char × Int) :=
  if tuple.length < 3 then none
  else
    match tuple.get? 1 with
    | some (.jstr p) =>
      match tuple.get? 2 with
      | some (.jint sz) =>
        if dvr_record_stable tuple now then some (p, sz) else none
      | _ => none
    | _ => none

/-- Stability as the claim words it: the 4th element when the tuple has a
4th element of boolean type, and otherwise the timestamp rule. -/
def spec_record_stable (tuple : List JVal) (now : Int) : Bool :=
  match tuple.get? 3 with
  | some (.jbool b) => b
  | _ =>
    match tuple.get? 0 with
    | some (.jint ts) => decide (ts < now - 60)
    | _ => false

/-! ### Storage manager (housedvr_store.c) -/

/-- The stat result for one path: whether the entry is a directory
((st_mode & S_IFMT) == S_IFDIR). -/
structure StatInfo where
  isDir : Bool
deriving DecidableEq, Repr

/-- %02d. -/
def twoDigitChars (m : Nat) : List Char :=
  if m < 10 then '0' :: (toString m).toList else (toString m).toList

/-- %d of an int. -/
def intChars (v : Int) : List Char := (toString v).toList

/-- dvr_store_yearly (lines 122-157), as the 13-element boolean list it
renders into WebBuffer.  The path for month m is built by appending
"%02d" directly after "%s/%d" (no separator, line 140), and the entry is
reported true when stat succeeds and the mode check
`(info.st_mode & S_IFMT) != S_IFDIR` holds (lines 141-144). -/
def dvr_store_yearly (root : List Char) (year : List Char)
    (stat : List Char → Option StatInfo) : List Bool :=
  let base := root ++ '/' :: intChars (atoiChars year)
  false :: (List.range 12).map (fun m0 =>
    match stat (base ++ twoDigitChars (m0 + 1)) with
    | some info => !info.isDir
    | none => false)

/-- The yearly mask as the spec describes it: month m is reported true
exactly when `<root>/<year>/<MM>` exists and is a directory. -/
def spec_store_yearly (root : List Char) (year : List Char)
    (stat : List Char → Option StatInfo) : List Bool :=
  false :: (List.range 12).map (fun m0 =>
    match stat (root ++ '/' :: intChars (atoiChars year) ++ '/' :: twoDigitChars (m0 + 1)) with
    | some info => info.isDir
    | none => false)

/-- A day-level archive tree: numeric directory names are abstracted to
their atoi values (years are rendered "%d", months and days "%02d", so a
canonical tree is keyed by value). -/
structure MonthDir where
  value : Nat
  days : List Nat
deriving DecidableEq, Repr

structure YearDir where
  value : Nat
  months : List MonthDir
deriving DecidableEq, Repr

/-- housedvr_store_oldest (lines 489-508): the minimum numeric entry of a
directory, computed against a 9999 sentinel; 0 when nothing numeric below
9999 is found. -/
def housedvr_store_oldest (entries : List Nat) : Nat :=
  let o := entries.foldl (fun acc i => if i < acc then i else acc) 9999
  if o = 9999 then 0 else o

/-- Remove the month directory m from year y. -/
def removeMonth (t : List YearDir) (y m : Nat) : List YearDir :=
  t.map (fun e => if e.value = y
                  then { e with months := e.months.filter (fun md => md.value ≠ m) }
                  else e)

/-- Remove the day directory d from month m of year y. -/
def removeDay (t : List YearDir) (y m d : Nat) : List YearDir :=
  t.map (fun e => if e.value = y
                  then { e with months := e.months.map (fun md =>
                           if md.value = m
                           then { md with days := md.days.filter (fun x => x ≠ d) }
                           else md) }
                  else e)

/-- housedvr_store_cleanup (lines 534-568) on the abstract tree: find the
oldest year; if it has no month, delete the empty year; else find its
oldest month; if it has no day, delete the empty month; else recursively
delete the oldest day directory. -/
def housedvr_store_cleanup (t : List YearDir) : List YearDir :=
  let y := housedvr_store_oldest (t.map YearDir.value)
  if y = 0 then t
  else
    match t.find? (fun e => e.value = y) with
    | none => t
    | some yd =>
      let m := housedvr_store_oldest (yd.months.map MonthDir.value)
      if m = 0 then t.filter (fun e => e.value ≠ y)
      else
        match yd.months.find? (fun md => md.value = m) with
        | none => t
        | some md =>
          let d := housedvr_store_oldest md.days
          if d = 0 then removeMonth t y m
          else removeDay t y m d

/-- The days of month m of year y in a tree. -/
def daysOf (t : List YearDir) (y m : Nat) : List Nat :=
  match t.find? (fun e => e.value = y) with
  | none => []
  | some yd =>
    match yd.months.find? (fun md => md.value = m) with
    | none => []
    | some md => md.days

/-! ### Status composition (C9) -/

/-- The observable outcome of one status function: the int it returns,
the buffer contents, whether the overflow trace was emitted, and whether
echttp_error (413) was called. -/
structure StatusOut where
  ret : Nat
  buffer : List Char
  traced : Bool
  err413 : Bool
deriving DecidableEq, Repr

/-- The cursor arithmetic shared by the status functions: each snprintf
adds the full would-be length of its chunk to the cursor, and the
function jumps to its overflow label when cursor >= size.  Returns the
final cursor, or none when some check failed. -/
def composeChunks (size : Nat) : List (List Char) → Nat → Option Nat
  | [], cursor => some cursor
  | c :: rest, cursor =>
    let cursor2 := cursor + c.length
    if size ≤ cursor2 then none else composeChunks size rest cursor2

/-- Whether rendering the given chunks into a buffer of the given size
overflows. -/
def overflowsB (size : Nat) (chunks : List (List Char)) : Bool :=
  (composeChunks size chunks 0).isNone

/-- One server entry of housedvr_feed_status (lines 674-679), skipped
when the timestamp is zero. -/
def feedServerChunk (sep : Bool) (sv : ServerReg) : List Char :=
  (if sep then [','] else []) ++
  ("\x7b\"name\":\"").toList ++ sv.name ++ ("\",\"url\":\"").toList ++ sv.adminurl ++
  ("\",\"space\":\"").toList ++ intChars sv.available ++ (" MB\",\"timestamp\":").toList ++
  intChars sv.timestamp ++ ("\x7d").toList

/-- One camera entry of housedvr_feed_status (lines 694-698), skipped
when the name is NULL. -/
def feedCameraChunk (sep : Bool) (fd : FeedReg) : List Char :=
  (if sep then [','] else []) ++
  ("\x7b\"name\":\"").toList ++ (fd.name.getD []) ++ ("\",\"url\":\"").toList ++ fd.url ++
  ("\",\"timestamp\":").toList ++ intChars fd.timestamp ++ ("\x7d").toList

/-- The chunk sequence of a loop that skips some entries, threading the
separator flag. -/
def loopChunks (skip : α → Bool) (render : Bool → α → List Char) :
    List α → Bool → List (List Char)
  | [], _ => []
  | x :: rest, sep =>
    if skip x then loopChunks skip render rest sep
    else render sep x :: loopChunks skip render rest true

/-- All snprintf chunks of housedvr_feed_status (lines 661-706), in
order; the separator resets before the camera loop. -/
def feedStatusChunks (st : FeedState) : List (List Char) :=
  [("\"servers\":[").toList] ++
  loopChunks (fun sv => decide (sv.timestamp = 0)) feedServerChunk st.servers false ++
  [[']']] ++ [(",\"feed\":[").toList] ++
  loopChunks (fun fd => decide (fd.name = none)) feedCameraChunk st.feeds false ++
  [[']']]

/-- housedvr_feed_status (lines 661-713): on overflow the trace is
emitted, echttp_error (413) is called, the buffer is cleared and 0 is
returned. -/
def housedvr_feed_status (st : FeedState) (size : Nat) : StatusOut :=
  let chunks := feedStatusChunks st
  match composeChunks size chunks 0 with
  | some c => { ret := c, buffer := chunks.flatten, traced := false, err413 := false }
  | none => { ret := 0, buffer := [], traced := true, err413 := true }

/-- One queue entry of housedvr_transfer_status (lines 415-417 and
437-439). -/
def transferItemChunk (sep : Bool) (sl : Slot) (stateStr : List Char) : List Char :=
  (if sep then [','] else []) ++
  ("\x7b\"feed\":\"").toList ++ sl.feed ++ ("\", \"path\":\"").toList ++ sl.path ++
  ['"'] ++ stateStr ++ ("\x7d").toList

/-- The history-loop chunks of housedvr_transfer_status (lines 394-420):
EMPTY slots are skipped, DONE/FAILED render a state, anything else is
crashandburn. -/
def transferHistChunks (slots : List Slot) : List Nat → Bool → Option (List (List Char) × Bool)
  | [], sep => some ([], sep)
  | j :: rest, sep =>
    match slots.get? j with
    | none => none
    | some sl =>
      match sl.state with
      | .empty => transferHistChunks slots rest sep
      | .done =>
        (transferHistChunks slots rest true).map
          (fun r => (transferItemChunk sep sl ((",\"state\":\"done\"").toList) :: r.1, r.2))
      | .failed =>
        (transferHistChunks slots rest true).map
          (fun r => (transferItemChunk sep sl ((",\"state\":\"failed\"").toList) :: r.1, r.2))
      | _ => none

/-- The pending-loop chunks of housedvr_transfer_status (lines 421-442):
ACTIVE renders a state, IDLE renders none, anything else is
crashandburn. -/
def transferPendChunks (slots : List Slot) : List Nat → Bool → Option (List (List Char))
  | [], _ => some []
  | j :: rest, sep =>
    match slots.get? j with
    | none => none
    | some sl =>
      match sl.state with
      | .active =>
        (transferPendChunks slots rest true).map
          (fun r => transferItemChunk sep sl ((",\"state\":\"active\"").toList) :: r)
      | .idle =>
        (transferPendChunks slots rest true).map
          (fun r => transferItemChunk sep sl [] :: r)
      | _ => none

/-- All snprintf chunks of housedvr_transfer_status, or none when the
queue state is invalid (crashandburn). -/
def transferStatusChunks (qs : QState) : Option (List (List Char)) :=
  match transferHistChunks qs.slots (histIndices qs) false with
  | none => none
  | some (hs, sep) =>
    match transferPendChunks qs.slots (pendIndices qs) sep with
    | none => none
    | some ps => some ([("\"queue\":[").toList] ++ hs ++ ps ++ [[']']])

/-- housedvr_transfer_status (lines 384-452): on overflow the trace is
emitted, the buffer is cleared and 0 is returned; echttp_error is NOT
called. -/
def housedvr_transfer_status (qs : QState) (size : Nat) : Option StatusOut :=
  match transferStatusChunks qs with
  | none => none
  | some chunks =>
    match composeChunks size chunks 0 with
    | some c => some { ret := c, buffer := chunks.flatten, traced := false, err413 := false }
    | none => some { ret := 0, buffer := [], traced := true, err413 := false }

/-- The statvfs data the storage status consumes. -/
structure FsStat where
  bavail : Int
  bsize : Int
  blocks : Int
  frsize : Int
deriving DecidableEq, Repr

/-- housedvr_store_free (lines 452-454). -/
def housedvr_store_free (s : FsStat) : Int := s.bavail * s.bsize

/-- housedvr_store_total (lines 456-458). -/
def housedvr_store_total (s : FsStat) : Int := s.blocks * s.frsize

/-- housedvr_store_used (lines 460-464). -/
def housedvr_store_used (s : FsStat) : Int :=
  (housedvr_store_total s - housedvr_store_free s) * 100 / housedvr_store_total s

/-- The single chunk of housedvr_store_status (lines 474-478). -/
def storeStatusChunk (root : List Char) (s : FsStat) : List Char :=
  ("\"storage\":[\x7b\"path\":\"").toList ++ root ++ ("\", \"used\":").toList ++
  intChars (housedvr_store_used s) ++ (", \"size\":").toList ++
  intChars (housedvr_store_total s) ++ (", \"free\":").toList ++
  intChars (housedvr_store_free s) ++ ("\x7d]").toList

/-- housedvr_store_status (lines 466-487): plain 0 when statvfs fails; on
overflow the trace is emitted, the buffer is cleared and 0 is returned;
echttp_error is NOT called. -/
def housedvr_store_status (root : List Char) (stv : Option FsStat) (size : Nat) : StatusOut :=
  match stv with
  | none => { ret := 0, buffer := [], traced := false, err413 := false }
  | some s =>
    let chunk := storeStatusChunk root s
    if size ≤ chunk.length
    then { ret := 0, buffer := [], traced := true, err413 := false }
    else { ret := chunk.length, buffer := chunk, traced := false, err413 := false }

/-! ### Concrete inputs used to exercise the definitions -/

/-- The default archive root (housedvr_store.c line 83). -/
def dvrRootChars : List Char := ("/storage/motion/videos").toList

/-- A file system with no files. -/
def fsNone : List Char → Option Int := fun _ => none

/-- The queue right after initialization with -dvr-queue=16. -/
def qInit16 : QState := housedvr_transfer_setup (some 16)

/-- A path that exactly overflows the 255-character path field. -/
def longPathA : List Char := List.replicate 256 'a'

/-- Two distinct paths agreeing on their first 255 bytes. -/
def c10PathB : List Char := List.replicate 255 'a' ++ ['b']

def c10PathC : List Char := List.replicate 255 'a' ++ ['c']

/-- A typical recording path. -/
def shortPath : List Char := ("2024/05/01/14-00-00-a.mkv").toList

/-- A typical feed base URL. -/
def feedUrl : List Char := ("http://cam:8080").toList

/-- First and second notify of the same over-long path. -/
def c5x1 : QState × Bool :=
  (housedvr_transfer_notify dvrRootChars fsNone feedUrl longPathA 5 qInit16).getD
    (qInit16, false)

def c5x2 : QState × Bool :=
  (housedvr_transfer_notify dvrRootChars fsNone feedUrl longPathA 5 c5x1.1).getD
    (qInit16, false)

/-- First and second notify of the same short path. -/
def c5w1 : QState × Bool :=
  (housedvr_transfer_notify dvrRootChars fsNone feedUrl shortPath 5 qInit16).getD
    (qInit16, false)

def c5w2 : QState × Bool :=
  (housedvr_transfer_notify dvrRootChars fsNone feedUrl shortPath 5 c5w1.1).getD
    (qInit16, false)

/-- Notify of the two paths sharing a 255-byte front. -/
def c10x1 : QState × Bool :=
  (housedvr_transfer_notify dvrRootChars fsNone feedUrl c10PathB 5 qInit16).getD
    (qInit16, false)

def c10x2 : QState × Bool :=
  (housedvr_transfer_notify dvrRootChars fsNone feedUrl c10PathC 5 c10x1.1).getD
    (qInit16, false)

/-- The feed-module rush path at a concrete input. -/
def c4res : QState × Int :=
  (housedvr_feed_scanned_rush dvrRootChars fsNone feedUrl shortPath 5 100 qInit16 0).getD
    (qInit16, 0)

/-- An empty feed registry. -/
def declSt0 : FeedState := { servers := [], feeds := [] }

/-- A recordings tuple whose 4th element is an integer, not a boolean. -/
def c6Tuple4 : List JVal :=
  [.jint 0, .jstr (("2024/05/01/a.mkv").toList), .jint 100, .jint 7]

/-- A 3-element recordings tuple with an old timestamp. -/
def c6Tuple3 : List JVal :=
  [.jint 0, .jstr (("2024/05/01/a.mkv").toList), .jint 100]

/-- A stat function under which /videos/2024/07 is a directory. -/
def c1Stat : List Char → Option StatInfo := fun p =>
  if p = ("/videos/2024/07").toList then some { isDir := true } else none

/-- A stat function under which the slashless path /videos/202407 exists
as a regular file. -/
def c1StatFlat : List Char → Option StatInfo := fun p =>
  if p = ("/videos/202407").toList then some { isDir := false } else none

/-- A small archive tree: 2023/12/31 is the oldest day. -/
def c7Tree : List YearDir :=
  [{ value := 2024,
     months := [{ value := 1, days := [2, 1] }, { value := 2, days := [5] }] },
   { value := 2023, months := [{ value := 12, days := [31] }] }]

/-- A statvfs sample. -/
def c9Stat : FsStat := { bavail := 1, bsize := 4096, blocks := 10, frsize := 4096 }

/-! ### Ring arithmetic -/

theorem next_lt {n : Nat} (i : Nat) (h : 1 ≤ n) : housedvr_transfer_next n i < n := by
  unfold housedvr_transfer_next; split <;> omega

theorem next_inj {n a b : Nat} (ha : a < n) (hb : b < n)
    (h : housedvr_transfer_next n a = housedvr_transfer_next n b) : a = b := by
  unfold housedvr_transfer_next at h; split at h <;> split at h <;> omega

theorem next_ne_self {n a : Nat} (ha : a < n) (hn : 2 ≤ n) :
    housedvr_transfer_next n a ≠ a := by
  unfold housedvr_transfer_next; split <;> omega

theorem distQ_lt {a b n : Nat} (ha : a < n) (hb : b < n) : distQ a b n < n := by
  unfold distQ; split <;> omega

theorem distQ_self (a n : Nat) : distQ a a n = 0 := by
  unfold distQ; split <;> omega

theorem distQ_eq_zero {a b n : Nat} (ha : a < n) (hb' : b < n) :
    distQ a b n = 0 ↔ a = b := by
  have hb := hb'
  unfold distQ; split <;> omega

theorem distQ_inj {a b c n : Nat} (ha : a < n) (hb : b < n) (hc : c < n)
    (h : distQ a b n = distQ a c n) : b = c := by
  unfold distQ at h; split at h <;> split at h <;> omega

theorem distQ_next_right {a b n : Nat} (ha : a < n) (hb : b < n)
    (h : housedvr_transfer_next n b ≠ a) :
    distQ a (housedvr_transfer_next n b) n = distQ a b n + 1 := by
  simp only [distQ, housedvr_transfer_next] at h ⊢
  split_ifs at h ⊢ <;> omega

theorem distQ_step {a i n : Nat} (ha : a < n) (hi : i < n) (h : i ≠ a) :
    distQ a i n = distQ (housedvr_transfer_next n a) i n + 1 := by
  unfold housedvr_transfer_next distQ
  split <;> split <;> split <;> omega

theorem distQ_excl {c p i n : Nat} (hc : c < n) (hp : p < n) (hi' : i < n)
    (h : distQ c i n < distQ c p n) : ¬ (distQ p i n < distQ p c n) := by
  have hi := hi'
  simp only [distQ] at h ⊢
  split_ifs at h ⊢ <;> omega

/-! ### Walk lemmas -/

theorem mem_walkQ {n : Nat} :
    ∀ (k a : Nat), a < n → ∀ i ∈ walkQ k a n, i < n ∧ distQ a i n < k := by
  intro k
  induction k with
  | zero => intro a _ i hi; simp [walkQ] at hi
  | succ k ih =>
    intro a ha i hi
    simp only [walkQ, List.mem_cons] at hi
    rcases hi with rfl | hi
    · exact ⟨ha, by rw [distQ_self]; omega⟩
    · have hnext : housedvr_transfer_next n a < n := next_lt a (by omega)
      obtain ⟨h1, h2⟩ := ih (housedvr_transfer_next n a) hnext i hi
      refine ⟨h1, ?_⟩
      by_cases hia : i = a
      · subst hia; rw [distQ_self]; omega
      · rw [distQ_step ha h1 hia]; omega

theorem walkQ_snoc {n b : Nat} (hb : b < n) :
    ∀ (k a : Nat), a < n → distQ a b n = k →
      housedvr_transfer_next n b ≠ a →
      walkQ (k + 1) a n = walkQ k a n ++ [b] := by
  intro k
  induction k with
  | zero =>
    intro a ha hd _
    have : a = b := by
      have := (distQ_eq_zero ha hb).mp hd
      omega
    subst this
    simp [walkQ]
  | succ k ih =>
    intro a ha hd hne
    have hab : a ≠ b := by
      intro h; subst h; rw [distQ_self] at hd; omega
    have hnext : housedvr_transfer_next n a < n := next_lt a (by omega)
    have hd2 : distQ (housedvr_transfer_next n a) b n = k := by
      have := distQ_step ha hb (Ne.symm hab)
      omega
    have hne2 : housedvr_transfer_next n b ≠ housedvr_transfer_next n a := by
      intro h
      exact hab (next_inj hb ha h).symm
    have := ih (housedvr_transfer_next n a) hnext hd2 hne2
    show a :: walkQ (k + 1) (housedvr_transfer_next n a) n = (a :: walkQ k (housedvr_transfer_next n a) n) ++ [b]
    rw [this]; simp

theorem indicesBetween_snoc {a b n : Nat} (ha : a < n) (hb : b < n)
    (h : housedvr_transfer_next n b ≠ a) :
    indicesBetween a (housedvr_transfer_next n b) n = indicesBetween a b n ++ [b] := by
  unfold indicesBetween
  rw [distQ_next_right ha hb h]
  exact walkQ_snoc hb (distQ a b n) a ha rfl h

theorem mem_indicesBetween {a b n i : Nat} (ha : a < n)
    (h : i ∈ indicesBetween a b n) : i < n ∧ distQ a i n < distQ a b n :=
  mem_walkQ (distQ a b n) a ha i h

/-! ### Scan lemmas -/

theorem runScan_fall {proc : Nat → ScanAct} :
    ∀ {l : List Nat} {m : Bool}, runScan proc l = some (.inr m) →
      ∀ j ∈ l, ∃ mm, proc j = .cont mm := by
  intro l
  induction l with
  | nil => intro m _ j hj; simp at hj
  | cons a rest ih =>
    intro m h j hj
    simp only [runScan] at h
    cases ha : proc a <;> rw [ha] at h
    · exact absurd h (by simp)
    · exact absurd h (by simp)
    · exact absurd h (by simp)
    · rename_i mm
      cases hr : runScan proc rest <;> rw [hr] at h
      · exact absurd h (by simp)
      · rename_i v
        cases v with
        | inl r => exact absurd h (by simp)
        | inr m2 =>
          simp only [List.mem_cons] at hj
          rcases hj with rfl | hj
          · exact ⟨mm, ha⟩
          · exact ih hr j hj

theorem runScan_retSlot {proc : Nat → ScanAct} :
    ∀ {l : List Nat} {i : Nat}, runScan proc l = some (.inl (some i)) →
      ∃ l1 j l2, l = l1 ++ j :: l2 ∧ (∀ x ∈ l1, ∃ m, proc x = .cont m) ∧
        proc j = .retSlot i := by
  intro l
  induction l with
  | nil => intro i h; simp [runScan] at h
  | cons a rest ih =>
    intro i h
    simp only [runScan] at h
    cases ha : proc a <;> rw [ha] at h
    · exact absurd h (by simp)
    · exact absurd h (by simp)
    · rename_i i2
      have : i2 = i := by simpa using h
      subst this
      exact ⟨[], a, rest, by simp, by simp, ha⟩
    · rename_i mm
      cases hr : runScan proc rest <;> rw [hr] at h
      · exact absurd h (by simp)
      · rename_i v
        cases v with
        | inl r =>
          have : r = some i := by simpa using h
          subst this
          obtain ⟨l1, j, l2, he, hf, hp⟩ := ih hr
          exact ⟨a :: l1, j, l2, by simp [he], by
            intro x hx
            simp only [List.mem_cons] at hx
            rcases hx with rfl | hx
            · exact ⟨mm, ha⟩
            · exact hf x hx, hp⟩
        | inr m2 => exact absurd h (by simp)

theorem runScan_isSome {proc : Nat → ScanAct} :
    ∀ {l : List Nat}, (∀ j ∈ l, proc j ≠ .crash) → (runScan proc l).isSome := by
  intro l
  induction l with
  | nil => intro _; simp [runScan]
  | cons a rest ih =>
    intro h
    simp only [runScan]
    cases ha : proc a
    · exact absurd ha (h a (by simp))
    · simp
    · simp
    · cases hr : runScan proc rest
      · have := ih (fun j hj => h j (by simp [hj]))
        rw [hr] at this; simp at this
      · rename_i v
        cases v <;> simp

/-! ### listModify lemmas -/

theorem length_listModify (f : α → α) :
    ∀ (i : Nat) (l : List α), (listModify f i l).length = l.length := by
  intro i l
  induction l generalizing i with
  | nil => cases i <;> rfl
  | cons a rest ih => cases i <;> simp [listModify, ih]

theorem get?_listModify_self (f : α → α) :
    ∀ (i : Nat) (l : List α), (listModify f i l).get? i = (l.get? i).map f := by
  intro i l
  induction l generalizing i with
  | nil => cases i <;> rfl
  | cons a rest ih =>
    cases i with
    | zero => rfl
    | succ i => exact ih i

theorem get?_listModify_ne (f : α → α) :
    ∀ (i j : Nat) (l : List α), j ≠ i → (listModify f i l).get? j = l.get? j := by
  intro i j l
  induction l generalizing i j with
  | nil => intro _; cases i <;> rfl
  | cons a rest ih =>
    intro h
    cases i with
    | zero => cases j with
      | zero => exact absurd rfl h
      | succ j => rfl
    | succ i => cases j with
      | zero => rfl
      | succ j => exact ih i j (by omega)

theorem countP_listModify_le (p : α → Bool) (f : α → α) :
    ∀ (i : Nat) (l : List α), (listModify f i l).countP p ≤ l.countP p + 1 := by
  intro i l
  induction l generalizing i with
  | nil => cases i <;> simp [listModify]
  | cons a rest ih =>
    cases i with
    | zero =>
      simp only [listModify, List.countP_cons]
      by_cases h1 : p (f a) = true <;> by_cases h2 : p a = true <;> simp [h1, h2]
      omega
    | succ i =>
      simp only [listModify, List.countP_cons]
      have := ih i
      by_cases h2 : p a = true <;> simp [h2] <;> omega

theorem countP_listModify_congr (p : α → Bool) (f : α → α) (hf : ∀ a, p (f a) = p a) :
    ∀ (i : Nat) (l : List α), (listModify f i l).countP p = l.countP p := by
  intro i l
  induction l generalizing i with
  | nil => cases i <;> rfl
  | cons a rest ih =>
    cases i with
    | zero => simp [listModify, List.countP_cons, hf]
    | succ i => simp [listModify, List.countP_cons, ih]

theorem get?_lt_of_some {l : List α} {i : Nat} {x : α} (h : l.get? i = some x) :
    i < l.length := by
  by_contra hc
  rw [List.get?_eq_none.mpr (by omega)] at h
  exact absurd h (by simp)

/-! ### Queue operation lemmas -/

theorem stateAt_state {qs : QState} {i : Nat} {t : TState}
    (h : stateAt qs i = some t) : (slotAt qs i).state = t := by
  unfold stateAt at h
  unfold slotAt
  cases hg : qs.slots.get? i <;> rw [hg] at h <;> simp_all

theorem stateAt_lt {qs : QState} {i : Nat} {t : TState}
    (h : stateAt qs i = some t) : i < qs.slots.length := by
  unfold stateAt at h
  cases hg : qs.slots.get? i <;> rw [hg] at h
  · exact absurd h (by simp)
  · exact get?_lt_of_some hg

theorem setSlotSize_state (qs : QState) (i : Nat) (v : Int) (j : Nat) :
    (slotAt (setSlotSize qs i v) j).state = (slotAt qs j).state := by
  unfold slotAt setSlotSize
  by_cases h : j = i
  · subst h
    rw [get?_listModify_self]
    cases qs.slots.get? j <;> rfl
  · rw [get?_listModify_ne _ _ _ _ h]

theorem setSlotSize_path (qs : QState) (i : Nat) (v : Int) (j : Nat) :
    (slotAt (setSlotSize qs i v) j).path = (slotAt qs j).path := by
  unfold slotAt setSlotSize
  by_cases h : j = i
  · subst h
    rw [get?_listModify_self]
    cases qs.slots.get? j <;> rfl
  · rw [get?_listModify_ne _ _ _ _ h]

theorem QInv_setSlotSize {qs : QState} (h : QInv qs) (i : Nat) (v : Int) :
    QInv (setSlotSize qs i v) := by
  obtain ⟨hn, hlen, hc, hp, hs⟩ := h
  refine ⟨hn, ?_, hc, hp, ?_⟩
  · simpa [setSlotSize, length_listModify] using hlen
  · intro j hj
    obtain ⟨o1, o2, o3, o4⟩ := hs j hj
    have hpend : inPending (setSlotSize qs i v) j ↔ inPending qs j := Iff.rfl
    refine ⟨?_, ?_, ?_, ?_⟩
    · intro hq; rw [setSlotSize_state]; exact o1 (hpend.mp hq)
    · intro hq; rw [setSlotSize_state]; exact o2 (fun hx => hq (hpend.mpr hx))
    · intro hq; rw [setSlotSize_state] at hq; exact o3 hq
    · intro hq; rw [setSlotSize_state] at hq; rw [setSlotSize_path]; exact o4 hq

theorem appendSlot_producer (qs : QState) (f p : List Char) (s : Int) :
    (appendSlot qs f p s).producer = housedvr_transfer_next qs.n qs.producer := rfl

theorem appendSlot_consumer (qs : QState) (f p : List Char) (s : Int) :
    (appendSlot qs f p s).consumer = qs.consumer := rfl

theorem appendSlot_n (qs : QState) (f p : List Char) (s : Int) :
    (appendSlot qs f p s).n = qs.n := rfl

theorem slotAt_appendSlot_ne {qs : QState} {j : Nat} (h : j ≠ qs.producer)
    (f p : List Char) (s : Int) :
    slotAt (appendSlot qs f p s) j = slotAt qs j := by
  unfold slotAt appendSlot
  rw [get?_listModify_ne _ _ _ _ h]

theorem slotAt_appendSlot_self {qs : QState} (hlt : qs.producer < qs.slots.length)
    (f p : List Char) (s : Int) :
    (slotAt (appendSlot qs f p s) qs.producer).state = TState.idle ∧
    (slotAt (appendSlot qs f p s) qs.producer).path = p.take 255 ∧
    (slotAt (appendSlot qs f p s) qs.producer).feed = f.take 127 ∧
    (slotAt (appendSlot qs f p s) qs.producer).size = s := by
  unfold slotAt appendSlot
  simp only
  rw [get?_listModify_self]
  cases hg : qs.slots.get? qs.producer
  · have := List.get?_eq_none.mp hg
    omega
  · simp

theorem QInv_append {qs : QState} (h : QInv qs)
    (hful : housedvr_transfer_next qs.n qs.producer ≠ qs.consumer)
    (f p : List Char) (s : Int) : QInv (appendSlot qs f p s) := by
  obtain ⟨hn, hlen, hc, hp, hs⟩ := h
  have hd : distQ qs.consumer (housedvr_transfer_next qs.n qs.producer) qs.n
      = distQ qs.consumer qs.producer qs.n + 1 := distQ_next_right hc hp hful
  refine ⟨hn, ?_, hc, ?_, ?_⟩
  · have hl2 : (appendSlot qs f p s).slots.length = qs.slots.length :=
      length_listModify _ _ _
    show (appendSlot qs f p s).slots.length = qs.n
    rw [hl2]; exact hlen
  · show housedvr_transfer_next qs.n qs.producer < qs.n
    exact next_lt _ (by omega)
  · intro i hi
    have hpend : ∀ j, inPending (appendSlot qs f p s) j ↔
        distQ qs.consumer j qs.n < distQ qs.consumer qs.producer qs.n + 1 := by
      intro j
      unfold inPending
      rw [show (appendSlot qs f p s).consumer = qs.consumer from rfl,
          show (appendSlot qs f p s).n = qs.n from rfl, appendSlot_producer, hd]
    by_cases hip : i = qs.producer
    · subst hip
      obtain ⟨e1, e2, e3, e4⟩ := @slotAt_appendSlot_self qs (by omega) f p s
      refine ⟨fun _ => Or.inl e1, ?_, ?_, ?_⟩
      · intro hq
        exact absurd ((hpend qs.producer).mpr (by omega)) hq
      · intro hq; rw [e1] at hq; exact absurd hq (by simp)
      · intro hq; rw [e1] at hq; exact absurd hq (by simp)
    · rw [slotAt_appendSlot_ne hip f p s]
      obtain ⟨o1, o2, o3, o4⟩ := hs i hi
      have heq : inPending (appendSlot qs f p s) i ↔ inPending qs i := by
        rw [hpend i]
        unfold inPending
        constructor
        · intro hq
          rcases Nat.lt_or_ge (distQ qs.consumer i qs.n) (distQ qs.consumer qs.producer qs.n)
            with hlt2 | hge
          · exact hlt2
          · exact absurd (distQ_inj hc hi hp (by omega)) hip
        · omega
      exact ⟨fun hq => o1 (heq.mp hq), fun hq => o2 (fun hx => hq (heq.mpr hx)), o3, o4⟩

theorem slotAt_activate_self {qs : QState} (now : Int)
    (hlt : qs.consumer < qs.slots.length) :
    (slotAt (activateSlot now qs) qs.consumer).state = TState.active := by
  unfold slotAt activateSlot
  simp only
  rw [get?_listModify_self]
  cases hg : qs.slots.get? qs.consumer
  · have := List.get?_eq_none.mp hg
    omega
  · simp

theorem slotAt_activate_ne {qs : QState} {j : Nat} (now : Int) (h : j ≠ qs.consumer) :
    slotAt (activateSlot now qs) j = slotAt qs j := by
  unfold slotAt activateSlot
  rw [get?_listModify_ne _ _ _ _ h]

theorem QInv_start_step {qs qs' : QState} {now : Int} (h : QInv qs)
    (hs : housedvr_transfer_start now qs = some qs') : QInv qs' := by
  unfold housedvr_transfer_start at hs
  split at hs
  · obtain rfl : qs = qs' := by simpa using hs
    exact h
  · rename_i hne
    split at hs
    · obtain rfl : qs = qs' := by simpa using hs
      exact h
    · rename_i hidle
      obtain rfl : activateSlot now qs = qs' := by simpa using hs
      obtain ⟨hn, hlen, hc, hp, hsl⟩ := h
      refine ⟨hn, ?_, hc, hp, ?_⟩
      · have hl2 : (activateSlot now qs).slots.length = qs.slots.length :=
          length_listModify _ _ _
        show (activateSlot now qs).slots.length = qs.n
        rw [hl2]; exact hlen
      · intro i hi
        have hpend : ∀ j, inPending (activateSlot now qs) j ↔ inPending qs j :=
          fun _ => Iff.rfl
        by_cases hic : i = qs.consumer
        · subst hic
          have hval := @slotAt_activate_self qs now (by omega)
          refine ⟨fun _ => Or.inr hval, ?_, fun _ => rfl, ?_⟩
          · intro hq
            have hcp : distQ qs.consumer qs.producer qs.n ≠ 0 :=
              fun hz => hne ((distQ_eq_zero hc hp).mp hz)
            have hpc : inPending qs qs.consumer := by
              unfold inPending
              rw [distQ_self]
              omega
            exact absurd ((hpend qs.consumer).mpr hpc) hq
          · intro hq; rw [hval] at hq; exact absurd hq (by simp)
        · rw [slotAt_activate_ne now hic]
          obtain ⟨o1, o2, o3, o4⟩ := hsl i hi
          exact ⟨fun hq => o1 ((hpend i).mp hq),
                 fun hq => o2 (fun hx => hq ((hpend i).mpr hx)), o3, o4⟩
    · exact absurd hs (by simp)

theorem slotAt_finish_self {qs : QState} (status : Nat)
    (hlt : qs.consumer < qs.slots.length) :
    (slotAt (finishSlot status qs) qs.consumer).state
      = (if status / 100 = 2 then TState.done else TState.failed) := by
  unfold slotAt finishSlot
  simp only
  rw [get?_listModify_self]
  cases hg : qs.slots.get? qs.consumer
  · have := List.get?_eq_none.mp hg
    omega
  · simp

theorem slotAt_finish_ne {qs : QState} {j : Nat} (status : Nat) (h : j ≠ qs.consumer) :
    slotAt (finishSlot status qs) j = slotAt qs j := by
  unfold slotAt finishSlot
  rw [get?_listModify_ne _ _ _ _ h]

theorem QInv_end_step {qs qs' : QState} {status : Nat} (h : QInv qs)
    (hs : housedvr_transfer_end status qs = some qs') : QInv qs' := by
  unfold housedvr_transfer_end at hs
  split at hs
  case h_2 => exact absurd hs (by simp)
  rename_i hact
  obtain rfl : finishSlot status qs = qs' := by simpa using hs
  obtain ⟨hn, hlen, hc, hp, hsl⟩ := h
  have hstc : (slotAt qs qs.consumer).state = .active := stateAt_state hact
  have hcp : qs.consumer ≠ qs.producer := by
    intro he
    obtain ⟨_, o2, _, _⟩ := hsl qs.consumer hc
    have hnp : ¬ inPending qs qs.consumer := by
      unfold inPending
      rw [distQ_self, he, distQ_self]
      omega
    have := o2 hnp
    rw [hstc] at this
    rcases this with h1 | h1 | h1 <;> exact absurd h1 (by simp)
  have hcpend : inPending qs qs.consumer := by
    by_contra hq
    obtain ⟨_, o2, _, _⟩ := hsl qs.consumer hc
    have := o2 hq
    rw [hstc] at this
    rcases this with h1 | h1 | h1 <;> exact absurd h1 (by simp)
  have hdpos : 1 ≤ distQ qs.consumer qs.producer qs.n := by
    unfold inPending at hcpend
    rw [distQ_self] at hcpend
    omega
  have hstep : distQ qs.consumer qs.producer qs.n
      = distQ (housedvr_transfer_next qs.n qs.consumer) qs.producer qs.n + 1 :=
    distQ_step hc hp (fun he => hcp he.symm)
  have hfc : (finishSlot status qs).consumer = housedvr_transfer_next qs.n qs.consumer := rfl
  have hfp : (finishSlot status qs).producer = qs.producer := rfl
  have hfn : (finishSlot status qs).n = qs.n := rfl
  refine ⟨hn, ?_, next_lt _ (by omega), hp, ?_⟩
  · have hl2 : (finishSlot status qs).slots.length = qs.slots.length :=
      length_listModify _ _ _
    show (finishSlot status qs).slots.length = qs.n
    rw [hl2]; exact hlen
  · intro i hi
    have hpend : ∀ j, inPending (finishSlot status qs) j ↔
        distQ (housedvr_transfer_next qs.n qs.consumer) j qs.n
          < distQ (housedvr_transfer_next qs.n qs.consumer) qs.producer qs.n :=
      fun _ => Iff.rfl
    by_cases hic : i = qs.consumer
    · subst hic
      have hval := @slotAt_finish_self qs status (by omega)
      have hnotp : ¬ inPending (finishSlot status qs) qs.consumer := by
        rw [hpend qs.consumer]
        have h1 : distQ (housedvr_transfer_next qs.n qs.consumer) qs.consumer qs.n
            = qs.n - 1 := by
          simp only [housedvr_transfer_next, distQ]
          split_ifs <;> omega
        have h2 := distQ_lt (@next_lt qs.n qs.consumer (by omega)) hp
        omega
      refine ⟨fun hq => absurd hq hnotp, ?_, ?_, ?_⟩
      · intro _
        rw [hval]
        split <;> simp [histState]
      · intro hq; rw [hval] at hq; split at hq <;> exact absurd hq (by simp)
      · intro hq; rw [hval] at hq; split at hq <;> exact absurd hq (by simp)
    · rw [slotAt_finish_ne status hic]
      obtain ⟨o1, o2, o3, o4⟩ := hsl i hi
      have hiff : inPending (finishSlot status qs) i ↔ inPending qs i := by
        rw [hpend i]
        unfold inPending
        have h1 : distQ qs.consumer i qs.n
            = distQ (housedvr_transfer_next qs.n qs.consumer) i qs.n + 1 :=
          distQ_step hc hi hic
        omega
      refine ⟨fun hq => o1 (hiff.mp hq),
              fun hq => o2 (fun hx => hq (hiff.mpr hx)), ?_, o4⟩
      intro hq
      exact absurd (o3 hq) hic

/-! ### Initialization and the notify inversion -/

theorem get?_replicate (a : α) :
    ∀ (n i : Nat), (List.replicate n a).get? i = if i < n then some a else none := by
  intro n
  induction n with
  | zero => intro i; simp [List.replicate]
  | succ n ih =>
    intro i
    cases i with
    | zero => simp [List.replicate]
    | succ i =>
      show (List.replicate n a).get? i = _
      rw [ih i]
      by_cases h : i < n <;> simp [h]

theorem queueSizeOf_ge (arg : Option Int) : 16 ≤ queueSizeOf arg := by
  unfold queueSizeOf
  split <;> omega

theorem QInv_setup (arg : Option Int) : QInv (housedvr_transfer_setup arg) := by
  have h16 := queueSizeOf_ge arg
  refine ⟨?_, ?_, ?_, ?_, ?_⟩
  · show 2 ≤ queueSizeOf arg
    omega
  · exact List.length_replicate _ _
  · show 0 < queueSizeOf arg
    omega
  · show 0 < queueSizeOf arg
    omega
  · intro i hi
    have hslot : slotAt (housedvr_transfer_setup arg) i = emptySlot := by
      unfold slotAt housedvr_transfer_setup
      simp only
      rw [get?_replicate]
      simp only [housedvr_transfer_setup] at hi
      simp [hi]
    have hnp : ¬ inPending (housedvr_transfer_setup arg) i := by
      unfold inPending housedvr_transfer_setup
      simp only
      rw [distQ_self]
      omega
    rw [hslot]
    exact ⟨fun hq => absurd hq hnp, fun _ => Or.inl rfl,
           fun hq => absurd hq (by simp [emptySlot]), fun _ => rfl⟩

theorem setSlotSize_producer (qs : QState) (i : Nat) (v : Int) :
    (setSlotSize qs i v).producer = qs.producer := rfl

theorem notify_cases {root : List Char} {fs : List Char → Option Int}
    {f p : List Char} {s : Int} {qs qs' : QState} {b : Bool}
    (h : housedvr_transfer_notify root fs f p s qs = some (qs', b)) :
    (b = false ∧ qs' = qs) ∨
    (b = false ∧ ∃ i, qs' = setSlotSize qs i s ∧
        runScan (procPend qs.slots p s) (pendIndices qs) = some (.inl (some i))) ∨
    (b = true ∧ qs' = appendSlot qs f p s ∧
        housedvr_transfer_next qs.n qs.producer ≠ qs.consumer ∧
        (∃ mp, runScan (procPend qs.slots p s) (pendIndices qs) = some (.inr mp))) := by
  unfold housedvr_transfer_notify at h
  split at h
  · exact absurd h (by simp)
  · obtain ⟨rfl, rfl⟩ : qs = qs' ∧ false = b := by simpa using h
    exact Or.inl ⟨rfl, rfl⟩
  · split at h
    · exact absurd h (by simp)
    · obtain ⟨rfl, rfl⟩ : qs = qs' ∧ false = b := by simpa using h
      exact Or.inl ⟨rfl, rfl⟩
    · rename_i i hp2
      obtain ⟨rfl, rfl⟩ : setSlotSize qs i s = qs' ∧ false = b := by simpa using h
      exact Or.inr (Or.inl ⟨rfl, i, rfl, hp2⟩)
    · rename_i mp hp2
      split at h
      · obtain ⟨rfl, rfl⟩ : qs = qs' ∧ false = b := by simpa using h
        exact Or.inl ⟨rfl, rfl⟩
      · split at h
        · obtain ⟨rfl, rfl⟩ : qs = qs' ∧ false = b := by simpa using h
          exact Or.inl ⟨rfl, rfl⟩
        · split at h
          · obtain ⟨rfl, rfl⟩ : qs = qs' ∧ false = b := by simpa using h
            exact Or.inl ⟨rfl, rfl⟩
          · split at h
            · obtain ⟨rfl, rfl⟩ : qs = qs' ∧ false = b := by simpa using h
              exact Or.inl ⟨rfl, rfl⟩
            · rename_i hful
              split at h
              · exact absurd h (by simp)
              · split at h
                · exact absurd h (by simp)
                · obtain ⟨rfl, rfl⟩ : appendSlot qs f p s = qs' ∧ true = b := by
                    simpa using h
                  exact Or.inr (Or.inr ⟨rfl, rfl, hful, mp, hp2⟩)

theorem QInv_notify {root : List Char} {fs : List Char → Option Int}
    {f p : List Char} {s : Int} {qs qs' : QState} {b : Bool}
    (h : QInv qs) (hs : housedvr_transfer_notify root fs f p s qs = some (qs', b)) :
    QInv qs' := by
  rcases notify_cases hs with ⟨_, rfl⟩ | ⟨_, i, rfl, _⟩ | ⟨_, rfl, hful, _⟩
  · exact h
  · exact QInv_setSlotSize h i s
  · exact QInv_append h hful f p s

theorem reachable_QInv {root : List Char} {arg : Option Int} {qs : QState}
    (h : TransferReachable root arg qs) : QInv qs := by
  induction h with
  | init => exact QInv_setup arg
  | step hr hstep ih =>
    rename_i qs1 qs2
    cases hstep with
    | notify fs feed path size _ _ b hn => exact QInv_notify ih hn
    | start now _ _ hn => exact QInv_start_step ih hn
    | complete status _ _ hn => exact QInv_end_step ih hn

/-! ### Helper lemmas for the notify claims -/

theorem get?_isSome_of_lt {l : List α} {i : Nat} (h : i < l.length) :
    ∃ x, l.get? i = some x := by
  cases hg : l.get? i
  · have := List.get?_eq_none.mp hg
    omega
  · exact ⟨_, rfl⟩

theorem procPend_retSlot_of {slots : List Slot} {p : List Char} {s : Int} {j : Nat}
    {sl : Slot} (hg : slots.get? j = some sl) (hpath : sl.path = p)
    (hst : sl.state = .idle) : procPend slots p s j = .retSlot j := by
  unfold procPend
  rw [hg]
  simp [hpath, hst]

theorem procPend_retSlot_inv {slots : List Slot} {p : List Char} {s : Int} {j i : Nat}
    (h : procPend slots p s j = .retSlot i) :
    i = j ∧ ∃ sl, slots.get? j = some sl ∧ sl.path = p ∧ sl.state = .idle := by
  unfold procPend at h
  cases hgg : slots.get? j with
  | none => rw [hgg] at h; simp at h
  | some sl =>
    rw [hgg] at h
    by_cases hpp : sl.path = p
    · cases hss : sl.state with
      | idle =>
        simp [hpp, hss] at h
        exact ⟨h.symm, sl, rfl, hpp, hss⟩
      | active =>
        by_cases hsz : sl.size = s <;> simp [hpp, hss, hsz] at h
      | empty => simp [hpp, hss] at h
      | done => simp [hpp, hss] at h
      | failed => simp [hpp, hss] at h
    · simp [hpp] at h

theorem procHist_ne_crash {slots : List Slot} {q : List Char} {s : Int} {j : Nat}
    {sl : Slot} (hg : slots.get? j = some sl) (hhist : histState sl.state)
    (hep : sl.state = .empty → sl.path = []) (hq : q ≠ []) :
    procHist slots q s j ≠ .crash := by
  unfold procHist
  rw [hg]
  by_cases hpp : sl.path = q
  · rcases hhist with h1 | h1 | h1
    · exact absurd ((hep h1).symm.trans hpp).symm hq
    · by_cases hsz : sl.size = s <;> simp [hpp, h1, hsz]
    · simp [hpp, h1]
  · simp [hpp]

theorem procPend_ne_crash {slots : List Slot} {q : List Char} {s : Int} {j : Nat}
    {sl : Slot} (hg : slots.get? j = some sl) (hpendst : pendState sl.state) :
    procPend slots q s j ≠ .crash := by
  unfold procPend
  rw [hg]
  by_cases hpp : sl.path = q
  · rcases hpendst with h1 | h1
    · simp [hpp, h1]
    · by_cases hsz : sl.size = s <;> simp [hpp, h1, hsz]
  · simp [hpp]

theorem occupied_setSlotSize (qs : QState) (i : Nat) (v : Int) :
    occupiedCount (setSlotSize qs i v) = occupiedCount qs := by
  show (listModify (fun sl => { sl with size := v }) i qs.slots).countP _
      = qs.slots.countP _
  exact countP_listModify_congr (fun sl => decide (sl.state ≠ TState.empty))
    (fun sl => { sl with size := v }) (fun _ => rfl) i qs.slots

theorem occupied_appendSlot_le (qs : QState) (f p : List Char) (s : Int) :
    occupiedCount (appendSlot qs f p s) ≤ occupiedCount qs + 1 := by
  show (listModify (fun sl => { sl with
      state := .idle, size := s, offset := 0,
      feed := f.take 127, path := p.take 255 }) qs.producer qs.slots).countP _
      ≤ qs.slots.countP _ + 1
  exact countP_listModify_le _ _ qs.producer qs.slots

/-- After an append, the slot written at the old producer index holds the
truncated path with IDLE state, and the old producer index belongs to the
new pending region. -/
theorem append_slot_found {qs : QState} (hinv : QInv qs)
    (hful : housedvr_transfer_next qs.n qs.producer ≠ qs.consumer)
    (f p : List Char) (s : Int) :
    qs.producer ∈ pendIndices (appendSlot qs f p s) ∧
    ∃ sl, (appendSlot qs f p s).slots.get? qs.producer = some sl ∧
      sl.path = p.take 255 ∧ sl.state = .idle := by
  obtain ⟨hn, hlen, hc, hp, _⟩ := hinv
  constructor
  · show qs.producer ∈ indicesBetween qs.consumer (housedvr_transfer_next qs.n qs.producer) qs.n
    rw [indicesBetween_snoc hc hp hful]
    simp
  · have hlen2 : (appendSlot qs f p s).slots.length = qs.slots.length :=
      length_listModify _ _ _
    obtain ⟨sl, hsl⟩ := @get?_isSome_of_lt _ ((appendSlot qs f p s).slots) qs.producer (by omega)
    obtain ⟨e1, e2, _, _⟩ := @slotAt_appendSlot_self qs (by omega) f p s
    have hslv : slotAt (appendSlot qs f p s) qs.producer = sl := by
      unfold slotAt
      rw [hsl]
      rfl
    exact ⟨sl, hsl, by rw [← hslv]; exact e2, by rw [← hslv]; exact e1⟩

/-- A successful notify on a state holding an IDLE slot with the scanned
path inside the pending region never appends (the pending scan cannot
fall through past that slot). -/
theorem notify_no_append {root : List Char} {fs : List Char → Option Int}
    {f q : List Char} {s : Int} {qs1 qs2 : QState} {b2 : Bool} {j : Nat} {sl : Slot}
    (hmem : j ∈ pendIndices qs1) (hg : qs1.slots.get? j = some sl)
    (hpath : sl.path = q) (hst : sl.state = .idle)
    (h2 : housedvr_transfer_notify root fs f q s qs1 = some (qs2, b2)) :
    b2 = false := by
  rcases notify_cases h2 with ⟨hb, _⟩ | ⟨hb, _⟩ | ⟨_, _, _, mp, hfall⟩
  · exact hb
  · exact hb
  · have hcont := runScan_fall hfall j hmem
    obtain ⟨mm, hmm⟩ := hcont
    rw [procPend_retSlot_of hg hpath hst] at hmm
    exact absurd hmm (by simp)

/-- A notify that returns false leaves the occupied count and the
producer untouched. -/
theorem notify_false_effect {root : List Char} {fs : List Char → Option Int}
    {f q : List Char} {s : Int} {qs qs' : QState}
    (h : housedvr_transfer_notify root fs f q s qs = some (qs', false)) :
    occupiedCount qs' = occupiedCount qs ∧ qs'.producer = qs.producer := by
  rcases notify_cases h with ⟨_, rfl⟩ | ⟨_, i, rfl, _⟩ | ⟨hb, _⟩
  · exact ⟨rfl, rfl⟩
  · exact ⟨occupied_setSlotSize qs i s, rfl⟩
  · exact absurd hb (by simp)

/-- C2.  In every state of the transfer queue reachable from
initialization by any sequence of notify, background-tick and
transfer-completion steps: every slot with index in [consumer, producer)
has state IDLE or ACTIVE; every slot with index in [producer, consumer)
has state EMPTY, DONE or FAILED; at most one slot is ACTIVE, and if a
slot is ACTIVE its index is consumer. -/
theorem claim_C2_queue_invariant (root : List Char) (arg : Option Int) (qs : QState)
    (h : TransferReachable root arg qs) :
    (∀ i, i < qs.n →
      (distQ qs.consumer i qs.n < distQ qs.consumer qs.producer qs.n →
        (slotAt qs i).state = .idle ∨ (slotAt qs i).state = .active) ∧
      (distQ qs.producer i qs.n < distQ qs.producer qs.consumer qs.n →
        (slotAt qs i).state = .empty ∨ (slotAt qs i).state = .done ∨
          (slotAt qs i).state = .failed)) ∧
    (∀ i j, i < qs.n → j < qs.n →
      (slotAt qs i).state = .active → (slotAt qs j).state = .active → i = j) ∧
    (∀ i, i < qs.n → (slotAt qs i).state = .active → i = qs.consumer) := by
  obtain ⟨hn, hlen, hc, hp, hsl⟩ := reachable_QInv h
  refine ⟨?_, ?_, ?_⟩
  · intro i hi
    obtain ⟨o1, o2, _, _⟩ := hsl i hi
    refine ⟨fun hq => o1 hq, fun hq => ?_⟩
    exact o2 (fun hpend => absurd hq (distQ_excl hc hp hi hpend))
  · intro i j hi hj hia hja
    obtain ⟨_, _, o3i, _⟩ := hsl i hi
    obtain ⟨_, _, o3j, _⟩ := hsl j hj
    rw [o3i hia, o3j hja]
  · intro i hi hia
    exact (hsl i hi).2.2.1 hia

/-- C4.  housedvr_transfer_notify returns a hint telling the caller
whether the file was newly enqueued, and the feed module reschedules the
next full scan to now + 10 exactly when that hint indicates a newly
enqueued file.  The hint component is spec-modelled (the C source
declares the function void while its caller reads an int). -/
theorem claim_C4_rush_on_new (root : List Char) (fs : List Char → Option Int)
    (feed path : List Char) (size : Int) (now : Int) (qs : QState) (nfs : Int)
    (qs' : QState) (nfs' : Int) (hinv : QInv qs)
    (h : housedvr_feed_scanned_rush root fs feed path size now qs nfs = some (qs', nfs')) :
    ∃ b, housedvr_transfer_notify root fs feed path size qs = some (qs', b) ∧
      nfs' = (if b then now + 10 else nfs) ∧
      (b = true ↔ qs'.producer ≠ qs.producer) ∧
      (b = true → qs' = appendSlot qs feed path size) := by
  unfold housedvr_feed_scanned_rush at h
  cases hn : housedvr_transfer_notify root fs feed path size qs <;> rw [hn] at h
  · exact absurd h (by simp)
  · rename_i v
    obtain ⟨q2, b⟩ := v
    obtain ⟨rfl, rfl⟩ : q2 = qs' ∧ (if b then now + 10 else nfs) = nfs' := by
      simpa using h
    refine ⟨b, rfl, rfl, ?_, ?_⟩
    · obtain ⟨hn2, _, _, hp2, _⟩ := hinv
      rcases notify_cases hn with ⟨rfl, rfl⟩ | ⟨rfl, i, rfl, _⟩ | ⟨rfl, rfl, _, _⟩
      · simp
      · simp [setSlotSize_producer]
      · simp only [appendSlot_producer]
        simpa using (next_ne_self hp2 hn2)
    · intro hb
      rcases notify_cases hn with ⟨hf, _⟩ | ⟨hf, _⟩ | ⟨_, rfl, _, _⟩
      · rw [hb] at hf; exact absurd hf (by simp)
      · rw [hb] at hf; exact absurd hf (by simp)
      · rfl

/-- C5 (amended).  For a path that fits the slot's 255-byte path field
and a queue state satisfying the queue invariant, calling notify twice in
succession with the same arguments and no other state change increases
the number of occupied queue slots by at most one. -/
theorem claim_C5_notify_twice (root : List Char) (fs : List Char → Option Int)
    (f p : List Char) (s : Int) (qs qs1 qs2 : QState) (b1 b2 : Bool)
    (hinv : QInv qs) (hplen : p.length ≤ 255)
    (h1 : housedvr_transfer_notify root fs f p s qs = some (qs1, b1))
    (h2 : housedvr_transfer_notify root fs f p s qs1 = some (qs2, b2)) :
    occupiedCount qs2 ≤ occupiedCount qs + 1 := by
  rcases notify_cases h1 with ⟨hb1, rfl⟩ | ⟨hb1, i, rfl, hscan⟩ | ⟨hb1, rfl, hful, _, _⟩
  · have := h1.symm.trans h2
    obtain ⟨rfl, rfl⟩ : qs1 = qs2 ∧ b1 = b2 := by simpa using this
    omega
  · -- the first call folded into an existing IDLE slot
    obtain ⟨l1, j0, l2, hdec, _, hproc⟩ := runScan_retSlot hscan
    obtain ⟨rfl, sl, hg, hpa, hst⟩ := procPend_retSlot_inv hproc
    have hmem : i ∈ pendIndices (setSlotSize qs i s) := by
      show i ∈ pendIndices qs
      rw [hdec]
      simp
    have hg1 : (setSlotSize qs i s).slots.get? i = some { sl with size := s } := by
      show (listModify _ i qs.slots).get? i = _
      rw [get?_listModify_self, hg]
      rfl
    have hb2 : b2 = false := notify_no_append hmem hg1 hpa hst h2
    subst hb2
    obtain ⟨ho, _⟩ := notify_false_effect h2
    rw [ho, occupied_setSlotSize]
    omega
  · -- the first call appended a new IDLE slot
    obtain ⟨hmem, sl, hg, hpa, hst⟩ := append_slot_found hinv hful f p s
    have hpa2 : sl.path = p := by
      rw [hpa]
      exact List.take_of_length_le hplen
    have hb2 : b2 = false := notify_no_append hmem hg hpa2 hst h2
    subst hb2
    obtain ⟨ho, _⟩ := notify_false_effect h2
    rw [ho]
    exact occupied_appendSlot_le qs f p s

/-- C10 (amended).  notify stores the path truncated to 255 bytes; the
transfer is requested for the truncated path; a follow-up notify whose
path equals the stored truncation is folded into the pending IDLE slot
rather than enqueued again. -/
theorem claim_C10_truncation (root : List Char) (fs : List Char → Option Int)
    (feed p : List Char) (s : Int) (qs qs1 : QState)
    (hinv : QInv qs) (hplen : 255 < p.length)
    (h1 : housedvr_transfer_notify root fs feed p s qs = some (qs1, true)) :
    (slotAt qs1 qs.producer).path = p.take 255 ∧
    (slotAt qs1 qs.producer).feed = feed.take 127 ∧
    p.take 255 ≠ p ∧
    housedvr_transfer_requestUrl (slotAt qs1 qs.producer)
      = (feed.take 127 ++ ("/recording/").toList ++ p.take 255).take 511 ∧
    (∃ qs2, housedvr_transfer_notify root fs feed (p.take 255) s qs1
        = some (qs2, false) ∧
      qs2.producer = qs1.producer ∧ occupiedCount qs2 = occupiedCount qs1) := by
  rcases notify_cases h1 with ⟨hb1, _⟩ | ⟨hb1, _⟩ | ⟨_, rfl, hful, _, _⟩
  · exact absurd hb1 (by simp)
  · exact absurd hb1 (by simp)
  · have hinv1 : QInv (appendSlot qs feed p s) := QInv_append hinv hful feed p s
    obtain ⟨hmem, sl, hsl, hslpath, hslstate⟩ := append_slot_found hinv hful feed p s
    have hn := hinv.1
    have hlen := hinv.2.1
    have hc := hinv.2.2.1
    have hp := hinv.2.2.2.1
    have htk : (p.take 255).length = 255 := by
      rw [List.length_take]; omega
    have hne : p.take 255 ≠ p := by
      intro he
      have : (p.take 255).length = p.length := by rw [he]
      omega
    have hqne : p.take 255 ≠ [] := by
      intro he
      rw [he] at htk
      simp at htk
    obtain ⟨e1, e2, e3, _⟩ := @slotAt_appendSlot_self qs (by omega) feed p s
    refine ⟨e2, e3, hne, ?_, ?_⟩
    · unfold housedvr_transfer_requestUrl
      rw [e2, e3]
    · have hp1lt : housedvr_transfer_next qs.n qs.producer < qs.n := next_lt _ (by omega)
      have hlen1 : (appendSlot qs feed p s).slots.length = qs.n := hinv1.2.1
      have hhist_list : histIndices (appendSlot qs feed p s)
          = indicesBetween (housedvr_transfer_next qs.n qs.producer) qs.consumer qs.n := by
        unfold histIndices
        rw [appendSlot_producer, appendSlot_consumer, appendSlot_n, if_neg hful]
      have hnocrashH : ∀ j ∈ histIndices (appendSlot qs feed p s),
          procHist (appendSlot qs feed p s).slots (p.take 255) s j ≠ .crash := by
        intro j hj
        rw [hhist_list] at hj
        obtain ⟨hjlt, hjd⟩ := mem_indicesBetween hp1lt hj
        have hnp : ¬ inPending (appendSlot qs feed p s) j := by
          show ¬ (distQ qs.consumer j qs.n
            < distQ qs.consumer (housedvr_transfer_next qs.n qs.producer) qs.n)
          exact distQ_excl hp1lt hc hjlt hjd
        obtain ⟨slj, hgj⟩ := @get?_isSome_of_lt _ ((appendSlot qs feed p s).slots) j (by omega)
        obtain ⟨_, q2, _, q4⟩ := hinv1.2.2.2.2 j (by
          show j < qs.n
          omega)
        have hslvj : slotAt (appendSlot qs feed p s) j = slj := by
          unfold slotAt
          rw [hgj]
          rfl
        have hhistj := q2 hnp
        have hempj := q4
        rw [hslvj] at hhistj hempj
        exact procHist_ne_crash hgj hhistj hempj hqne
      obtain ⟨r, hr⟩ := Option.isSome_iff_exists.mp (runScan_isSome hnocrashH)
      cases r with
      | inl r0 =>
        refine ⟨appendSlot qs feed p s, ?_, rfl, rfl⟩
        unfold housedvr_transfer_notify
        rw [hr]
      | inr mh =>
        have hnocrashP : ∀ j ∈ pendIndices (appendSlot qs feed p s),
            procPend (appendSlot qs feed p s).slots (p.take 255) s j ≠ .crash := by
          intro j hj
          obtain ⟨hjlt, hjd⟩ := @mem_indicesBetween qs.consumer
            (housedvr_transfer_next qs.n qs.producer) qs.n j hc hj
          have hpendj : inPending (appendSlot qs feed p s) j := hjd
          obtain ⟨slj, hgj⟩ :=
            @get?_isSome_of_lt _ ((appendSlot qs feed p s).slots) j (by omega)
          obtain ⟨q1, _, _, _⟩ := hinv1.2.2.2.2 j (by
            show j < qs.n
            omega)
          have hslvj : slotAt (appendSlot qs feed p s) j = slj := by
            unfold slotAt
            rw [hgj]
            rfl
          have hpendstj := q1 hpendj
          rw [hslvj] at hpendstj
          exact procPend_ne_crash hgj hpendstj
        obtain ⟨r2, hr2⟩ := Option.isSome_iff_exists.mp (runScan_isSome hnocrashP)
        have hretp : procPend (appendSlot qs feed p s).slots (p.take 255) s qs.producer
            = .retSlot qs.producer :=
          procPend_retSlot_of hsl hslpath hslstate
        cases r2 with
        | inl r3 =>
          cases r3 with
          | none =>
            refine ⟨appendSlot qs feed p s, ?_, rfl, rfl⟩
            unfold housedvr_transfer_notify
            rw [hr, hr2]
          | some i =>
            refine ⟨setSlotSize (appendSlot qs feed p s) i s, ?_, rfl,
                    occupied_setSlotSize _ i s⟩
            unfold housedvr_transfer_notify
            rw [hr, hr2]
        | inr m =>
          obtain ⟨mm, hmm⟩ := runScan_fall hr2 qs.producer hmem
          rw [hretp] at hmm
          exact absurd hmm (by simp)

set_option maxRecDepth 10000

/-- Witness for C2: the invariant holds at the freshly initialized
queue. -/
theorem claim_C2_witness :
    (∀ i, i < qInit16.n →
      (distQ qInit16.consumer i qInit16.n
          < distQ qInit16.consumer qInit16.producer qInit16.n →
        (slotAt qInit16 i).state = .idle ∨ (slotAt qInit16 i).state = .active) ∧
      (distQ qInit16.producer i qInit16.n
          < distQ qInit16.producer qInit16.consumer qInit16.n →
        (slotAt qInit16 i).state = .empty ∨ (slotAt qInit16 i).state = .done ∨
          (slotAt qInit16 i).state = .failed)) ∧
    (∀ i j, i < qInit16.n → j < qInit16.n →
      (slotAt qInit16 i).state = .active → (slotAt qInit16 j).state = .active → i = j) ∧
    (∀ i, i < qInit16.n → (slotAt qInit16 i).state = .active → i = qInit16.consumer) :=
  claim_C2_queue_invariant dvrRootChars (some 16) qInit16 TransferReachable.init

/-- Witness for C4: a concrete new recording is enqueued and the next
full scan is rushed to now + 10. -/
theorem claim_C4_witness :
    ∃ b, housedvr_transfer_notify dvrRootChars fsNone feedUrl shortPath 5 qInit16
        = some (c4res.1, b) ∧
      c4res.2 = (if b then (100 : Int) + 10 else 0) ∧
      (b = true ↔ c4res.1.producer ≠ qInit16.producer) ∧
      (b = true → c4res.1 = appendSlot qInit16 feedUrl shortPath 5) :=
  claim_C4_rush_on_new dvrRootChars fsNone feedUrl shortPath 5 100 qInit16 0
    c4res.1 c4res.2 (by decide) (by decide)

/-- Witness for C5 (amended): with a short path the second notify folds
into the first IDLE slot. -/
theorem claim_C5_witness :
    QInv qInit16 ∧ shortPath.length ≤ 255 ∧
    housedvr_transfer_notify dvrRootChars fsNone feedUrl shortPath 5 qInit16
      = some c5w1 ∧
    housedvr_transfer_notify dvrRootChars fsNone feedUrl shortPath 5 c5w1.1
      = some c5w2 ∧
    occupiedCount c5w2.1 ≤ occupiedCount qInit16 + 1 :=
  ⟨by decide, by decide, by decide, by decide,
   claim_C5_notify_twice dvrRootChars fsNone feedUrl shortPath 5 qInit16
     c5w1.1 c5w2.1 c5w1.2 c5w2.2 (by decide) (by decide) (by decide) (by decide)⟩

/-- Counterexample for C5 as stated: with a 256-character path, two
successive notify calls with identical arguments and no intervening state
change add two queue slots (the stored path is truncated to 255
characters, so the duplicate is not recognized). -/
theorem claim_C5_counterexample :
    longPathA.length = 256 ∧
    housedvr_transfer_notify dvrRootChars fsNone feedUrl longPathA 5 qInit16
      = some c5x1 ∧
    housedvr_transfer_notify dvrRootChars fsNone feedUrl longPathA 5 c5x1.1
      = some c5x2 ∧
    occupiedCount qInit16 = 0 ∧ occupiedCount c5x2.1 = 2 :=
  ⟨by decide, by decide, by decide, by decide, by decide⟩

/-- Witness for C10 (amended): a 256-character path is stored truncated,
the transfer URL uses the truncated path, and a notify with the stored
255-character path folds into the pending slot. -/
theorem claim_C10_witness :
    (slotAt c10x1.1 qInit16.producer).path = c10PathB.take 255 ∧
    (slotAt c10x1.1 qInit16.producer).feed = feedUrl.take 127 ∧
    c10PathB.take 255 ≠ c10PathB ∧
    housedvr_transfer_requestUrl (slotAt c10x1.1 qInit16.producer)
      = (feedUrl.take 127 ++ ("/recording/").toList ++ c10PathB.take 255).take 511 ∧
    (∃ qs2, housedvr_transfer_notify dvrRootChars fsNone feedUrl
        (c10PathB.take 255) 5 c10x1.1 = some (qs2, false) ∧
      qs2.producer = c10x1.1.producer ∧ occupiedCount qs2 = occupiedCount c10x1.1) :=
  claim_C10_truncation dvrRootChars fsNone feedUrl c10PathB 5 qInit16 c10x1.1
    (by decide) (by decide) (by decide)

/-- Counterexample for C10 as stated: two distinct paths agreeing on
their first 255 bytes are NOT treated as the same queue entry when both
are longer than the stored truncation: the second notify enqueues a
second slot instead of deduplicating. -/
theorem claim_C10_counterexample :
    c10PathB ≠ c10PathC ∧
    c10PathB.take 255 = c10PathC.take 255 ∧
    housedvr_transfer_notify dvrRootChars fsNone feedUrl c10PathB 5 qInit16
      = some c10x1 ∧ c10x1.2 = true ∧
    housedvr_transfer_notify dvrRootChars fsNone feedUrl c10PathC 5 c10x1.1
      = some c10x2 ∧ c10x2.2 = true ∧
    occupiedCount c10x2.1 = 2 :=
  ⟨by decide, by decide, by decide, by decide, by decide, by decide, by decide⟩

/-! ### C8: availableMB normalization -/

theorem stopchar_find (s : List Char) (h : ∀ c ∈ s, 0 < c.toNat ∧ c.toNat < 128) :
    dvr_feed_stopchar s = (s.find? isalphaC).getD (Char.ofNat 0) := by
  induction s with
  | nil => rfl
  | cons c rest ih =>
    obtain ⟨h1, h2⟩ := h c (by simp)
    have hnotbig : ¬ (c.toNat < 1 ∨ 128 ≤ c.toNat) := by omega
    by_cases ha : isalphaC c = true
    · unfold dvr_feed_stopchar
      rw [if_neg hnotbig, if_pos ha, List.find?_cons_of_pos _ ha]
      rfl
    · unfold dvr_feed_stopchar
      rw [if_neg hnotbig, if_neg ha, List.find?_cons_of_neg _ (by simpa using ha)]
      exact ih (fun x hx => h x (by simp [hx]))

theorem get?_append_last (l : List α) (e : α) (j : Nat) :
    (l ++ [e]).get? j = l.get? j ∨
    ((l ++ [e]).get? j = some e ∧ l.get? j = none) := by
  induction l generalizing j with
  | nil =>
    cases j with
    | zero => right; exact ⟨rfl, rfl⟩
    | succ j => left; cases j <;> rfl
  | cons a rest ih =>
    cases j with
    | zero => left; rfl
    | succ j => exact ih j

/-- Every server entry of the state produced by housedvr_feed_server is
either untouched or carries the freshly normalized available value. -/
theorem feed_server_available_stored (now updated : Int) (nm adminurl s : List Char)
    (st : FeedState) (j : Nat) (sv : ServerReg)
    (hj : (housedvr_feed_server now nm updated adminurl s st).1.servers.get? j
      = some sv) :
    sv.available = dvr_feed_available s ∨
    (housedvr_feed_server now nm updated adminurl s st).1.servers.get? j
      = st.servers.get? j := by
  unfold housedvr_feed_server at hj ⊢
  cases hf : findLastIdx (serverMatches nm) st.servers with
  | some i =>
    rw [hf] at hj
    by_cases hji : j = i
    · subst hji
      left
      have hj2 : (listModify (serverUpdate now updated adminurl (dvr_feed_available s))
          j st.servers).get? j = some sv := hj
      rw [get?_listModify_self] at hj2
      cases hg : st.servers.get? j <;> rw [hg] at hj2
      · exact absurd hj2 (by simp)
      · rename_i x
        have hv : serverUpdate now updated adminurl (dvr_feed_available s) x = sv := by
          simpa using hj2
        rw [← hv]
        rfl
    · right
      show (listModify (serverUpdate now updated adminurl (dvr_feed_available s))
          i st.servers).get? j = st.servers.get? j
      exact get?_listModify_ne _ _ _ _ hji
  | none =>
    rw [hf] at hj
    cases hf2 : st.servers.findIdx? serverFreeSlot with
    | some i =>
      rw [hf2] at hj
      by_cases hji : j = i
      · subst hji
        left
        have hj2 : (listModify
            (fun sv => serverUpdate now updated adminurl (dvr_feed_available s)
              { sv with name := nm.take 127 })
            j st.servers).get? j = some sv := hj
        rw [get?_listModify_self] at hj2
        cases hg : st.servers.get? j <;> rw [hg] at hj2
        · exact absurd hj2 (by simp)
        · rename_i x
          have hv : serverUpdate now updated adminurl (dvr_feed_available s)
              { x with name := nm.take 127 } = sv := by
            simpa using hj2
          rw [← hv]
          rfl
      · right
        show (listModify
            (fun sv => serverUpdate now updated adminurl (dvr_feed_available s)
              { sv with name := nm.take 127 })
            i st.servers).get? j = st.servers.get? j
        exact get?_listModify_ne _ _ _ _ hji
    | none =>
      rw [hf2] at hj
      have hj2 : (st.servers ++
          [serverUpdate now updated adminurl (dvr_feed_available s)
            { name := nm.take 127, updated := 0, adminurl := [],
              available := 0, timestamp := 0 }]).get? j = some sv := hj
      rcases get?_append_last st.servers
          (serverUpdate now updated adminurl (dvr_feed_available s)
            { name := nm.take 127, updated := 0, adminurl := [],
              available := 0, timestamp := 0 }) j with he | ⟨he, _⟩
      · right
        exact he
      · left
        rw [he] at hj2
        have hv : serverUpdate now updated adminurl (dvr_feed_available s)
            { name := nm.take 127, updated := 0, adminurl := [],
              available := 0, timestamp := 0 } = sv := by
          simpa using hj2
        rw [← hv]
        rfl

/-- C8.  For every ASCII available-space string s (bytes in 1..127, as
every other byte stops the signed-char scan of housedvr_feed_server),
the stored availableMB value follows the claim's formula: atoi(s) when
the first alphabetic character is 'M', atoi(s)*1024 when it is 'G', and
0 otherwise; and every server entry touched by housedvr_feed_server
receives exactly that value. -/
theorem claim_C8_availableMB (s : List Char)
    (hascii : ∀ c ∈ s, 0 < c.toNat ∧ c.toNat < 128) :
    dvr_feed_available s = spec_availableMB s ∧
    (∀ (st : FeedState) (now updated : Int) (nm adminurl : List Char)
        (j : Nat) (sv : ServerReg),
      (housedvr_feed_server now nm updated adminurl s st).1.servers.get? j = some sv →
      sv.available = spec_availableMB s ∨
      (housedvr_feed_server now nm updated adminurl s st).1.servers.get? j
        = st.servers.get? j) := by
  have hmain : dvr_feed_available s = spec_availableMB s := by
    unfold dvr_feed_available spec_availableMB
    rw [stopchar_find s hascii]
    cases hf : s.find? isalphaC with
    | none =>
      rw [if_neg (by decide), if_neg (by decide)]
    | some c =>
      simp only [Option.getD_some]
      by_cases hG : c = 'G'
      · subst hG
        rw [if_pos rfl, if_neg (by decide), if_pos rfl]
      · by_cases hM : c = 'M'
        · subst hM
          rw [if_neg (by decide), if_pos rfl, if_pos rfl]
        · rw [if_neg hG, if_neg hM, if_neg hM, if_neg hG]
  refine ⟨hmain, ?_⟩
  intro st now updated nm adminurl j sv hj
  rcases feed_server_available_stored now updated nm adminurl s st j sv hj with h | h
  · left
    rw [← hmain]
    exact h
  · right
    exact h

/-- Witness for C8 at the string "12G". -/
theorem claim_C8_witness :
    (∀ c ∈ ("12G").toList, 0 < c.toNat ∧ c.toNat < 128) ∧
    dvr_feed_available (("12G").toList) = spec_availableMB (("12G").toList) ∧
    dvr_feed_available (("12G").toList) = 12288 :=
  ⟨by decide, (claim_C8_availableMB (("12G").toList) (by decide)).1, by decide⟩

/-! ### C3: the legacy declare handler -/

/-- C3 (amended).  A request missing name, url or available is silently
ignored (no registration, no crash); a missing admin falls back to url
and the request proceeds; a request missing only devices first registers
the server and then dereferences the NULL devices pointer (crash). -/
theorem claim_C3_declare_behavior :
    (∀ (now : Int) admin url space devices st,
       dvr_feed_declare now none admin url space devices st = (st, false)) ∧
    (∀ (now : Int) name admin space devices st,
       dvr_feed_declare now name admin none space devices st = (st, false)) ∧
    (∀ (now : Int) name admin url devices st,
       dvr_feed_declare now name admin url none devices st = (st, false)) ∧
    (∀ (now : Int) nm u sp dv st,
       dvr_feed_declare now (some nm) none (some u) (some sp) dv st
         = dvr_feed_declare now (some nm) (some u) (some u) (some sp) dv st) ∧
    (∀ (now : Int) a nm u sp st,
       dvr_feed_declare now (some nm) a (some u) (some sp) none st
         = ((housedvr_feed_server now nm 0
              ((("http://").toList ++ a.getD u ++ ['/']).take 255) sp st).1, true)) := by
  refine ⟨?_, ?_, ?_, ?_, ?_⟩
  · intro now admin url space devices st
    cases url <;> cases space <;> rfl
  · intro now name admin space devices st
    cases name <;> cases space <;> rfl
  · intro now name admin url devices st
    cases name <;> cases url <;> rfl
  · intro now nm u sp dv st
    rfl
  · intro now a nm u sp st
    cases a <;> rfl

/-- Counterexample for C3 as stated: a request carrying name, admin, url
and available but no devices parameter registers the server and then
crashes on the NULL devices pointer, instead of being silently ignored
without registration. -/
theorem claim_C3_counterexample :
    (dvr_feed_declare 1000 (some (("peer1").toList)) (some (("adm").toList))
        (some (("peer1:8080").toList)) (some (("12G").toList)) none declSt0).2 = true ∧
    (dvr_feed_declare 1000 (some (("peer1").toList)) (some (("adm").toList))
        (some (("peer1:8080").toList)) (some (("12G").toList)) none declSt0).1.servers.length
      = 1 :=
  ⟨by decide, by decide⟩

/-! ### C6: recording stability -/

/-- C6 (amended).  A valid recordings tuple (string path at [1], integer
size at [2]) is forwarded exactly when the code's stability flag is set,
and that flag is: the 4th element when the tuple has at least 4 elements
and the 4th is a boolean; false when the tuple has at least 4 elements
and the 4th is not a boolean; otherwise whether the integer timestamp at
[0] is older than now - 60. -/
theorem claim_C6_stability (tuple : List JVal) (now : Int) (p : List Char) (sz : Int)
    (hp : tuple.get? 1 = some (.jstr p)) (hsz : tuple.get? 2 = some (.jint sz)) :
    dvr_record_forwarded tuple now
      = (if dvr_record_stable tuple now then some (p, sz) else none) ∧
    dvr_record_stable tuple now
      = (if 4 ≤ tuple.length then
          (match tuple.get? 3 with
           | some (.jbool b) => b
           | _ => false)
         else
          (match tuple.get? 0 with
           | some (.jint ts) => decide (ts < now - 60)
           | _ => false)) := by
  constructor
  · have h3 : ¬ (tuple.length < 3) := by
      have := get?_lt_of_some hsz
      omega
    unfold dvr_record_forwarded
    rw [if_neg h3, hp, hsz]
  · rfl

/-- Witness for C6 at a 3-element tuple with an old timestamp. -/
theorem claim_C6_witness :
    c6Tuple3.get? 1 = some (.jstr (("2024/05/01/a.mkv").toList)) ∧
    c6Tuple3.get? 2 = some (.jint 100) ∧
    (dvr_record_forwarded c6Tuple3 1000
      = (if dvr_record_stable c6Tuple3 1000
         then some ((("2024/05/01/a.mkv").toList), 100) else none) ∧
     dvr_record_stable c6Tuple3 1000
      = (if 4 ≤ c6Tuple3.length then
          (match c6Tuple3.get? 3 with
           | some (.jbool b) => b
           | _ => false)
         else
          (match c6Tuple3.get? 0 with
           | some (.jint ts) => decide (ts < (1000 : Int) - 60)
           | _ => false))) :=
  ⟨by decide, by decide,
   claim_C6_stability c6Tuple3 1000 (("2024/05/01/a.mkv").toList) 100
     (by decide) (by decide)⟩

/-- Counterexample for C6 as stated: a 4-element tuple whose 4th element
is an integer and whose timestamp is older than now - 60 is stable per
the claim's "otherwise" rule, yet the code treats it as unstable and
does not forward it. -/
theorem claim_C6_counterexample :
    c6Tuple4.length = 4 ∧
    c6Tuple4.get? 1 = some (.jstr (("2024/05/01/a.mkv").toList)) ∧
    c6Tuple4.get? 2 = some (.jint 100) ∧
    spec_record_stable c6Tuple4 1000 = true ∧
    dvr_record_stable c6Tuple4 1000 = false ∧
    dvr_record_forwarded c6Tuple4 1000 = none :=
  ⟨by decide, by decide, by decide, by decide, by decide, by decide⟩

/-! ### C1: the yearly browse endpoint -/

/-- C1.  The month mask of /dvr/storage/yearly diverges from the claim:
the code stats `<root>/<year><MM>` (no slash before the month, line 140)
and reports true only when that path exists and is NOT a directory
(`!= S_IFDIR`, line 142), while the claim (and the sibling monthly
handler) requires `<root>/<year>/<MM>` to exist and be a directory.
Month 7 of 2024 exists as a directory, yet the code reports false; the
code reports true exactly for a non-directory at the slashless path. -/
theorem claim_C1_yearly_divergence :
    (dvr_store_yearly (("/videos").toList) (("2024").toList) c1Stat).length = 13 ∧
    (dvr_store_yearly (("/videos").toList) (("2024").toList) c1Stat).get? 0
      = some false ∧
    c1Stat (("/videos/2024/07").toList) = some { isDir := true } ∧
    (spec_store_yearly (("/videos").toList) (("2024").toList) c1Stat).get? 7
      = some true ∧
    (dvr_store_yearly (("/videos").toList) (("2024").toList) c1Stat).get? 7
      = some false ∧
    c1StatFlat (("/videos/202407").toList) = some { isDir := false } ∧
    (dvr_store_yearly (("/videos").toList) (("2024").toList) c1StatFlat).get? 7
      = some true :=
  ⟨by decide, by decide, by decide, by decide, by decide, by decide, by decide⟩

/-! ### C9: status overflow handling -/

/-- C9 (amended).  On overflow every status function emits the overflow
trace, clears the buffer and returns 0; housedvr_feed_status additionally
sets HTTP error 413, while housedvr_transfer_status and
housedvr_store_status set no HTTP error.  Without overflow each returns
the rendered length. -/
theorem claim_C9_overflow_behavior :
    (∀ st size, composeChunks size (feedStatusChunks st) 0 = none →
        housedvr_feed_status st size
          = { ret := 0, buffer := [], traced := true, err413 := true }) ∧
    (∀ st size c, composeChunks size (feedStatusChunks st) 0 = some c →
        housedvr_feed_status st size
          = { ret := c, buffer := (feedStatusChunks st).flatten,
              traced := false, err413 := false }) ∧
    (∀ qs size cs, transferStatusChunks qs = some cs →
        composeChunks size cs 0 = none →
        housedvr_transfer_status qs size
          = some { ret := 0, buffer := [], traced := true, err413 := false }) ∧
    (∀ root stv size, size ≤ (storeStatusChunk root stv).length →
        housedvr_store_status root (some stv) size
          = { ret := 0, buffer := [], traced := true, err413 := false }) := by
  refine ⟨?_, ?_, ?_, ?_⟩
  · intro st size hov
    unfold housedvr_feed_status
    simp [hov]
  · intro st size c hc
    unfold housedvr_feed_status
    simp [hc]
  · intro qs size cs hcs hov
    unfold housedvr_transfer_status
    simp [hcs, hov]
  · intro root stv size hle
    unfold housedvr_store_status
    simp [hle]

/-- Witness for C9 (amended) at concrete states and buffer sizes. -/
theorem claim_C9_witness :
    housedvr_feed_status declSt0 4
      = { ret := 0, buffer := [], traced := true, err413 := true } ∧
    housedvr_transfer_status qInit16 5
      = some { ret := 0, buffer := [], traced := true, err413 := false } ∧
    housedvr_store_status dvrRootChars (some c9Stat) 5
      = { ret := 0, buffer := [], traced := true, err413 := false } :=
  ⟨claim_C9_overflow_behavior.1 declSt0 4 (by decide),
   claim_C9_overflow_behavior.2.2.1 qInit16 5
     ((transferStatusChunks qInit16).getD []) (by decide) (by decide),
   claim_C9_overflow_behavior.2.2.2 dvrRootChars c9Stat 5 (by decide)⟩

/-- Counterexample for C9 as stated: the transfer and storage status
functions overflow (trace emitted, empty section, return 0) WITHOUT
setting HTTP error 413, so the behavior is not uniform across the three
status functions. -/
theorem claim_C9_counterexample :
    housedvr_transfer_status qInit16 4
      = some { ret := 0, buffer := [], traced := true, err413 := false } ∧
    housedvr_store_status dvrRootChars (some c9Stat) 4
      = { ret := 0, buffer := [], traced := true, err413 := false } :=
  ⟨by decide, by decide⟩

/-! ### C7: one cleanup cycle -/

theorem foldl_min_facts :
    ∀ (l : List Nat) (acc : Nat),
      (l.foldl (fun a i => if i < a then i else a) acc = acc ∨
        l.foldl (fun a i => if i < a then i else a) acc ∈ l) ∧
      l.foldl (fun a i => if i < a then i else a) acc ≤ acc ∧
      (∀ x ∈ l, l.foldl (fun a i => if i < a then i else a) acc ≤ x) := by
  intro l
  induction l with
  | nil =>
    intro acc
    refine ⟨Or.inl rfl, Nat.le_refl _, ?_⟩
    intro x hx
    simp at hx
  | cons a rest ih =>
    intro acc
    simp only [List.foldl_cons]
    obtain ⟨h1, h2, h3⟩ := ih (if a < acc then a else acc)
    have hstep : (if a < acc then a else acc) ≤ acc ∧ (if a < acc then a else acc) ≤ a := by
      split <;> omega
    refine ⟨?_, by omega, ?_⟩
    · rcases h1 with he | hm
      · rw [he]
        split
        · exact Or.inr (by simp)
        · exact Or.inl rfl
      · exact Or.inr (by simp [hm])
    · intro x hx
      simp only [List.mem_cons] at hx
      rcases hx with rfl | hx
      · omega
      · exact h3 x hx

theorem oldest_spec {l : List Nat} (hb : ∀ x ∈ l, 1 ≤ x ∧ x ≤ 9998) (hne : l ≠ []) :
    housedvr_store_oldest l ∈ l ∧ (∀ x ∈ l, housedvr_store_oldest l ≤ x) ∧
    housedvr_store_oldest l ≠ 0 := by
  obtain ⟨h1, h2, h3⟩ := foldl_min_facts l 9999
  obtain ⟨x0, hx0⟩ : ∃ x, x ∈ l := by
    cases l with
    | nil => exact absurd rfl hne
    | cons a r => exact ⟨a, by simp⟩
  have hle := h3 x0 hx0
  have hb0 := hb x0 hx0
  have hne9999 : l.foldl (fun a i => if i < a then i else a) 9999 ≠ 9999 := by omega
  have hmem : l.foldl (fun a i => if i < a then i else a) 9999 ∈ l := by
    rcases h1 with he | hm
    · exact absurd he hne9999
    · exact hm
  have hpos := (hb _ hmem).1
  unfold housedvr_store_oldest
  rw [if_neg hne9999]
  exact ⟨hmem, h3, by omega⟩

theorem oldest_nil : housedvr_store_oldest [] = 0 := rfl

theorem find?_comp_eq {α : Type} (p : α → Bool) (f : α → α) (l : List α)
    (h : ∀ a, p (f a) = p a) :
    (l.map f).find? p = (l.find? p).map f := by
  induction l with
  | nil => rfl
  | cons a r ih =>
    simp only [List.map_cons, List.find?_cons]
    rw [h a]
    cases hp : p a
    · simpa using ih
    · simp

/-- The year filter of removeDay preserves year values, so the lookup in
daysOf lands on the modified entry; the oldest day is gone afterward. -/
theorem daysOf_removeDay (t : List YearDir) (y m d : Nat) :
    d ∉ daysOf (removeDay t y m d) y m := by
  unfold daysOf removeDay
  rw [find?_comp_eq]
  · cases hf : t.find? (fun e => decide (e.value = y)) with
    | none => simp
    | some yd =>
      have hyv : yd.value = y := by simpa using List.find?_some hf
      simp only [Option.map_some']
      rw [if_pos hyv]
      rw [find?_comp_eq]
      · cases hg : yd.months.find? (fun md => decide (md.value = m)) with
        | none => simp
        | some md =>
          have hmv : md.value = m := by simpa using List.find?_some hg
          simp only [Option.map_some']
          rw [if_pos hmv]
          intro hmem
          have := List.mem_filter.mp hmem
          simp at this
      · intro md
        by_cases hmd : md.value = m
        · simp [hmd]
        · simp [hmd]
  · intro e
    by_cases he : e.value = y
    · simp [he]
    · simp [he]

/-- C7.  A single cleanup cycle over the archive tree: nothing happens
without a numeric year; an empty oldest year is deleted; an empty oldest
month of the oldest year is deleted; otherwise the numerically smallest
day directory of the smallest month of the smallest year is deleted, and
that oldest day directory no longer exists afterward. -/
theorem claim_C7_cleanup_cycle (t : List YearDir)
    (hy : ∀ yd ∈ t, 1 ≤ yd.value ∧ yd.value ≤ 9998)
    (hm : ∀ yd ∈ t, ∀ md ∈ yd.months, 1 ≤ md.value ∧ md.value ≤ 12)
    (hd : ∀ yd ∈ t, ∀ md ∈ yd.months, ∀ d ∈ md.days, 1 ≤ d ∧ d ≤ 31) :
    (t = [] ∧ housedvr_store_cleanup t = t) ∨
    (∃ yd, yd ∈ t ∧ (∀ y2 ∈ t, yd.value ≤ y2.value) ∧
      ((yd.months = [] ∧
         housedvr_store_cleanup t = t.filter (fun e => e.value ≠ yd.value)) ∨
       (∃ md, md ∈ yd.months ∧ (∀ m2 ∈ yd.months, md.value ≤ m2.value) ∧
         ((md.days = [] ∧
            housedvr_store_cleanup t = removeMonth t yd.value md.value) ∨
          (∃ d, d ∈ md.days ∧ (∀ d2 ∈ md.days, d ≤ d2) ∧
            housedvr_store_cleanup t = removeDay t yd.value md.value d ∧
            d ∉ daysOf (housedvr_store_cleanup t) yd.value md.value))))) := by
  by_cases ht : t = []
  · left
    refine ⟨ht, ?_⟩
    rw [ht]
    rfl
  · right
    have hvne : t.map YearDir.value ≠ [] := by
      intro he
      exact ht (List.map_eq_nil_iff.mp he)
    have hvb : ∀ x ∈ t.map YearDir.value, 1 ≤ x ∧ x ≤ 9998 := by
      intro x hx
      obtain ⟨yd, hyd, rfl⟩ := List.mem_map.mp hx
      exact hy yd hyd
    obtain ⟨hymem, hymin, hyne0⟩ := oldest_spec hvb hvne
    obtain ⟨yd0, hfy⟩ : ∃ yd0,
        t.find? (fun e => decide (e.value = housedvr_store_oldest (t.map YearDir.value)))
          = some yd0 := by
      apply Option.isSome_iff_exists.mp
      rw [List.find?_isSome]
      obtain ⟨yd, hyd, hv⟩ := List.mem_map.mp hymem
      exact ⟨yd, hyd, by simp [hv]⟩
    have hy0mem : yd0 ∈ t := List.mem_of_find?_eq_some hfy
    have hy0val : yd0.value = housedvr_store_oldest (t.map YearDir.value) := by
      simpa using List.find?_some hfy
    refine ⟨yd0, hy0mem, ?_, ?_⟩
    · intro y2 hy2
      rw [hy0val]
      exact hymin _ (List.mem_map_of_mem _ hy2)
    · by_cases hmo : yd0.months = []
      · left
        refine ⟨hmo, ?_⟩
        unfold housedvr_store_cleanup
        rw [if_neg hyne0, hfy]
        simp only [hmo, List.map_nil]
        rw [show housedvr_store_oldest ([] : List Nat) = 0 from rfl]
        rw [if_pos rfl, hy0val]
      · right
        have hmvne : yd0.months.map MonthDir.value ≠ [] := by
          intro he
          exact hmo (List.map_eq_nil_iff.mp he)
        have hmvb : ∀ x ∈ yd0.months.map MonthDir.value, 1 ≤ x ∧ x ≤ 9998 := by
          intro x hx
          obtain ⟨md, hmd, rfl⟩ := List.mem_map.mp hx
          have := hm yd0 hy0mem md hmd
          omega
        obtain ⟨hmmem, hmmin, hmne0⟩ := oldest_spec hmvb hmvne
        obtain ⟨md0, hfm⟩ : ∃ md0,
            yd0.months.find?
              (fun md => decide
                (md.value = housedvr_store_oldest (yd0.months.map MonthDir.value)))
              = some md0 := by
          apply Option.isSome_iff_exists.mp
          rw [List.find?_isSome]
          obtain ⟨md, hmd, hv⟩ := List.mem_map.mp hmmem
          exact ⟨md, hmd, by simp [hv]⟩
        have hm0mem : md0 ∈ yd0.months := List.mem_of_find?_eq_some hfm
        have hm0val : md0.value = housedvr_store_oldest (yd0.months.map MonthDir.value) := by
          simpa using List.find?_some hfm
        refine ⟨md0, hm0mem, ?_, ?_⟩
        · intro m2 hm2
          rw [hm0val]
          exact hmmin _ (List.mem_map_of_mem _ hm2)
        · by_cases hdo : md0.days = []
          · left
            refine ⟨hdo, ?_⟩
            unfold housedvr_store_cleanup
            rw [if_neg hyne0, hfy]
            simp only [if_neg hmne0, hfm]
            rw [hdo, show housedvr_store_oldest ([] : List Nat) = 0 from rfl]
            rw [if_pos rfl, hy0val, hm0val]
          · right
            have hdvb : ∀ x ∈ md0.days, 1 ≤ x ∧ x ≤ 9998 := by
              intro x hx
              have := hd yd0 hy0mem md0 hm0mem x hx
              omega
            obtain ⟨hdmem, hdmin, hdne0⟩ := oldest_spec hdvb hdo
            refine ⟨housedvr_store_oldest md0.days, hdmem, hdmin, ?_⟩
            have hcl : housedvr_store_cleanup t
                = removeDay t yd0.value md0.value (housedvr_store_oldest md0.days) := by
              unfold housedvr_store_cleanup
              rw [if_neg hyne0, hfy]
              simp only [if_neg hmne0, hfm, if_neg hdne0]
              rw [hy0val, hm0val]
            refine ⟨hcl, ?_⟩
            rw [hcl]
            exact daysOf_removeDay t yd0.value md0.value (housedvr_store_oldest md0.days)

/-- Witness for C7: in a tree holding 2024/01/{01,02}, 2024/02/05 and
2023/12/31, one cleanup cycle deletes the day 2023/12/31. -/
theorem claim_C7_witness :
    (∀ yd ∈ c7Tree, 1 ≤ yd.value ∧ yd.value ≤ 9998) ∧
    ((c7Tree = [] ∧ housedvr_store_cleanup c7Tree = c7Tree) ∨
     (∃ yd, yd ∈ c7Tree ∧ (∀ y2 ∈ c7Tree, yd.value ≤ y2.value) ∧
      ((yd.months = [] ∧
         housedvr_store_cleanup c7Tree = c7Tree.filter (fun e => e.value ≠ yd.value)) ∨
       (∃ md, md ∈ yd.months ∧ (∀ m2 ∈ yd.months, md.value ≤ m2.value) ∧
         ((md.days = [] ∧
            housedvr_store_cleanup c7Tree = removeMonth c7Tree yd.value md.value) ∨
          (∃ d, d ∈ md.days ∧ (∀ d2 ∈ md.days, d ≤ d2) ∧
            housedvr_store_cleanup c7Tree = removeDay c7Tree yd.value md.value d ∧
            d ∉ daysOf (housedvr_store_cleanup c7Tree) yd.value md.value)))))) :=
  ⟨by decide,
   claim_C7_cleanup_cycle c7Tree (by decide) (by decide) (by decide)⟩

end HouseDvr
